import Mathlib

/-!
Verification development for the open-system scheduler of CoMeT
(`src/common/scheduler/scheduler_open.cc`).

The scheduler state (the `openTasks` and `systemCores` arrays together with
the configuration values read in the constructor) is embedded shallowly as a
Lean structure, and the public hooks (`schedule`, `setAffinity`,
`threadCreate`, `threadExit`, `periodic`) are translated line by line as
state-passing functions.  A hook that can reach `exit(1)` is modelled with an
`Option` result, `none` standing for the aborted run.  64-bit unsigned
quantities (`UInt64` in the source) are modelled as `Nat` with explicit
`% 2 ^ 64` where the source can wrap around.  Host-simulator state (thread
manager, performance models, `m_thread_info`, quantum bookkeeping) is outside
the scheduler's arrays; the thread-to-application-id lookup that the source
performs through `Sim()->getThreadManager()` is passed in as a function
`appIdOf`, and the pluggable mapping policy as a function `pol`.
-/

set_option maxHeartbeats 1000000

namespace CoMeT

/-- Per-core record of the open scheduler (`openCore` in the scheduler's
header; the header is not among the sources, the fields are the ones accessed
by `scheduler_open.cc`): the id of the task owning the core and the id
of the thread pinned to it, `-1` meaning unassigned / unattached. -/
structure openCore where
  coreID : Nat
  assignedTaskID : Int
  assignedThreadID : Int
deriving DecidableEq

instance : Inhabited openCore := ⟨⟨0, -1, -1⟩⟩

/-- Per-task record of the open scheduler (`openTask` in the scheduler's
header; fields are the ones accessed by `scheduler_open.cc`).  Times are
`UInt64` nanosecond values in the source, kept as `Nat < 2 ^ 64`. -/
structure openTask where
  taskID : Nat
  taskName : String
  taskCoreRequirement : Nat
  taskArrivalTime : Nat
  taskStartTime : Nat
  taskDepartureTime : Nat
  waitingToSchedule : Bool
  waitingInQueue : Bool
  active : Bool
  completed : Bool
deriving DecidableEq

instance : Inhabited openTask :=
  ⟨⟨0, "", 0, 0, 0, 0, false, false, false, false⟩⟩

/-- The scheduler-owned state of `SchedulerOpen`: the configuration values
fixed by the constructor and the two parallel arrays mutated by the hooks. -/
structure SchedState where
  numberOfTasks : Nat
  numberOfCores : Nat
  queuePolicy : String
  m_core_mask : List Bool
  openTasks : List openTask
  systemCores : List openCore
deriving DecidableEq

/-- Signature of `SchedulerOpen::mappingPolicy->map`: task name, core
requirement, available-core mask, active-core mask, returning an ordered
list of chosen core indices. -/
def MappingPolicy : Type :=
  String → Nat → List Bool → List Bool → List Nat

/-- `SchedulerOpen::taskFrontOfQueue` (scheduler_open.cc:140).  Under the
`FIFO` policy, the lowest-indexed task with `waitingInQueue`, `-1` when the
queue is empty; any other policy string hits `exit(1)` (modelled `none`). -/
def taskFrontOfQueue (s : SchedState) : Option Int :=
  if s.queuePolicy = "FIFO" then
    some (match s.openTasks.findIdx? (fun t => t.waitingInQueue) with
          | some i => (i : Int)
          | none => -1)
  else
    none

/-- `SchedulerOpen::numberOfFreeCores` (scheduler_open.cc:166): cores whose
`assignedTaskID` is `-1`; the core mask is not consulted. -/
def numberOfFreeCores (s : SchedState) : Nat :=
  s.systemCores.countP (fun c => c.assignedTaskID == -1)

/-- `SchedulerOpen::numberOfTasksInQueue` (scheduler_open.cc:179). -/
def numberOfTasksInQueue (s : SchedState) : Nat :=
  s.openTasks.countP (fun t => t.waitingInQueue)

/-- `SchedulerOpen::numberOfTasksWaitingToSchedule` (scheduler_open.cc:192). -/
def numberOfTasksWaitingToSchedule (s : SchedState) : Nat :=
  s.openTasks.countP (fun t => t.waitingToSchedule)

/-- `SchedulerOpen::numberOfTasksCompleted` (scheduler_open.cc:206). -/
def numberOfTasksCompleted (s : SchedState) : Nat :=
  s.openTasks.countP (fun t => t.completed)

/-- `SchedulerOpen::numberOfActiveTasks` (scheduler_open.cc:220). -/
def numberOfActiveTasks (s : SchedState) : Nat :=
  s.openTasks.countP (fun t => t.active)

/-- `SchedulerOpen::totalCoreRequirementsOfActiveTasks`
(scheduler_open.cc:234): the running sum of `taskCoreRequirement` over the
tasks with `active == true`. -/
def totalCoreRequirementsOfActiveTasks (s : SchedState) : Nat :=
  s.openTasks.foldl (fun acc t => if t.active then acc + t.taskCoreRequirement else acc) 0

/-- `SchedulerOpen::isAssignedToTask` (scheduler_open.cc:355), on the core
record itself. -/
def isAssignedToTask (c : openCore) : Bool :=
  c.assignedTaskID != -1

/-- `SchedulerOpen::isAssignedToThread` (scheduler_open.cc:362). -/
def isAssignedToThread (c : openCore) : Bool :=
  c.assignedThreadID != -1

/-- `SchedulerOpen::setAffinity` (scheduler_open.cc:311): find the first core
whose `assignedTaskID` equals the thread's application id and whose
`assignedThreadID` is `-1`; when found, record the thread there (the affinity
mask pushed to the host via `threadSetAffinity` is host state).  Returns the
found core id (`-1` when none) together with the new state. -/
def setAffinity (appIdOf : Nat → Int) (thread_id : Nat) (s : SchedState) :
    Int × SchedState :=
  let app_id := appIdOf thread_id
  match s.systemCores.findIdx?
      (fun c => c.assignedTaskID == app_id && c.assignedThreadID == -1) with
  | none => (-1, s)
  | some i =>
      let c := { s.systemCores.getD i default with assignedThreadID := (thread_id : Int) }
      ((i : Int), { s with systemCores := s.systemCores.set i c })

/-- The assignment loop of `SchedulerOpen::executeMappingPolicy`
(scheduler_open.cc:381): `systemCores[bestCores.at(i)].assignedTaskID = taskID`
for every returned index, in order. -/
def assignCores (cores : List openCore) (best : List Nat) (taskID : Nat) :
    List openCore :=
  best.foldl
    (fun cs i => cs.set i { cs.getD i default with assignedTaskID := (taskID : Int) })
    cores

/-- `SchedulerOpen::executeMappingPolicy` (scheduler_open.cc:366): build the
available mask (`m_core_mask[i] && !isAssignedToTask(i)`) and the active mask
(`isAssignedToTask(i)`), call the policy, fail when it returned fewer than
`taskCoreRequirement` indices, otherwise assign every returned core. -/
def executeMappingPolicy (pol : MappingPolicy) (taskID : Nat) (s : SchedState) :
    Bool × SchedState :=
  let availableCores := (List.range s.numberOfCores).map
      (fun i => s.m_core_mask.getD i false && !(isAssignedToTask (s.systemCores.getD i default)))
  let activeCores := (List.range s.numberOfCores).map
      (fun i => isAssignedToTask (s.systemCores.getD i default))
  let t := s.openTasks.getD taskID default
  let bestCores := pol t.taskName t.taskCoreRequirement availableCores activeCores
  if bestCores.length < t.taskCoreRequirement then
    (false, s)
  else
    (true, { s with systemCores := assignCores s.systemCores bestCores taskID })

/-- The step-2 flip of `SchedulerOpen::schedule` (scheduler_open.cc:401):
`waitingInQueue = true; waitingToSchedule = false`. -/
def queueTask (s : SchedState) (taskID : Nat) : SchedState :=
  let t := { s.openTasks.getD taskID default with
             waitingInQueue := true, waitingToSchedule := false }
  { s with openTasks := s.openTasks.set taskID t }

/-- The success update of `SchedulerOpen::schedule` (scheduler_open.cc:424):
`taskStartTime = now`, the task becomes active and leaves both queues. -/
def activateTask (s : SchedState) (taskID : Nat) (now : Nat) : SchedState :=
  let t := { s.openTasks.getD taskID default with
             taskStartTime := now, active := true,
             waitingInQueue := false, waitingToSchedule := false }
  { s with openTasks := s.openTasks.set taskID t }

/-- `SchedulerOpen::schedule` (scheduler_open.cc:392), the ordered checks:
not-yet-arrived, flip into the queue (`queueTask`), front-of-queue, capacity,
mapping policy; on success `setAffinity` is pushed for non-initial calls and
the task is activated with `taskStartTime = now`.  `none` models the
`exit(1)` inside `taskFrontOfQueue` (unknown queue policy). -/
def schedule (pol : MappingPolicy) (appIdOf : Nat → Int) (taskID : Nat)
    (isInitialCall : Bool) (now : Nat) (s : SchedState) :
    Option (Bool × SchedState) :=
  if (s.openTasks.getD taskID default).taskArrivalTime > now then
    some (false, s)
  else
    match taskFrontOfQueue (queueTask s taskID) with
    | none => none
    | some front =>
      if front ≠ (taskID : Int) then
        some (false, queueTask s taskID)
      else if numberOfFreeCores (queueTask s taskID) <
          ((queueTask s taskID).openTasks.getD taskID default).taskCoreRequirement then
        some (false, queueTask s taskID)
      else
        match executeMappingPolicy pol taskID (queueTask s taskID) with
        | (false, s2) => some (false, s2)
        | (true, s2) =>
          some (true,
            activateTask (if !isInitialCall then (setAffinity appIdOf taskID s2).2 else s2)
              taskID now)

/-- `SchedulerOpen::fetchTasksIntoQueue` (scheduler_open.cc:497): every
`waitingToSchedule` task whose arrival time is `≤ now` flips into the queue. -/
def fetchTasksIntoQueue (now : Nat) (s : SchedState) : SchedState :=
  { s with openTasks := s.openTasks.map (fun t =>
      if t.waitingToSchedule && t.taskArrivalTime ≤ now then
        { t with waitingInQueue := true, waitingToSchedule := false }
      else t) }

/-- `SchedulerOpen::threadCreate` (scheduler_open.cc:437), the parts touching
the scheduler's arrays: `schedule(0, true, now)` for thread 0 (failure is
`exit(1)`, modelled `none`), `schedule(thread_id, true, now)` for the other
primary threads, then `setAffinity(thread_id)`.  The `m_thread_info`
bookkeeping and the free-core search of the pinned base class only touch
host-simulator state. -/
def threadCreate (pol : MappingPolicy) (appIdOf : Nat → Int) (thread_id : Nat)
    (now : Nat) (s : SchedState) : Option SchedState :=
  if thread_id == 0 then
    match schedule pol appIdOf 0 true now s with
    | none => none
    | some (ok, s') =>
      if ok then some (setAffinity appIdOf thread_id s').2 else none
  else if thread_id < s.numberOfTasks then
    match schedule pol appIdOf thread_id true now s with
    | none => none
    | some (_, s') => some (setAffinity appIdOf thread_id s').2
  else
    some (setAffinity appIdOf thread_id s).2

/-- The first release loop of `SchedulerOpen::threadExit`
(scheduler_open.cc:519): detach the exiting thread from every core that holds
it. -/
def releaseThreadCores (cores : List openCore) (thread_id : Nat) : List openCore :=
  cores.map (fun c =>
    if c.assignedThreadID == (thread_id : Int) then { c with assignedThreadID := -1 } else c)

/-- The second release loop of `SchedulerOpen::threadExit`
(scheduler_open.cc:535): free every core owned by the finished task. -/
def releaseTaskCores (cores : List openCore) (app_id : Int) : List openCore :=
  cores.map (fun c =>
    if c.assignedTaskID == app_id then { c with assignedTaskID := -1 } else c)

/-- The `nextArrivalTime` scan of `SchedulerOpen::threadExit`
(scheduler_open.cc:560): starting from `0`, every `waitingToSchedule` task
replaces an accumulator that is still `0`, and otherwise lowers it when
strictly smaller. -/
def computeNextArrivalTime (tasks : List openTask) : Nat :=
  tasks.foldl
    (fun acc t =>
      if t.waitingToSchedule then
        if acc == 0 then t.taskArrivalTime
        else if acc > t.taskArrivalTime then t.taskArrivalTime
        else acc
      else acc)
    0

/-- Wrapping `UInt64` subtraction `a - b` of the source, on `Nat` values kept
below `2 ^ 64`. -/
def usub64 (a b : Nat) : Nat :=
  (a + (2 ^ 64 - b % 2 ^ 64)) % 2 ^ 64

/-- The arrival-time adjustment loop of `SchedulerOpen::threadExit`
(scheduler_open.cc:581): `taskArrivalTime -= timeJump` (UInt64 wrap) for every
`waitingToSchedule` task. -/
def adjustArrivalTimes (tasks : List openTask) (timeJump : Nat) : List openTask :=
  tasks.map (fun t =>
    if t.waitingToSchedule then { t with taskArrivalTime := usub64 t.taskArrivalTime timeJump }
    else t)

/-- The completion update of `SchedulerOpen::threadExit`
(scheduler_open.cc:542): `openTasks[app_id]` gets its departure time and
flips to completed / inactive.  The source indexes the array with the `int`
application id; a negative id is out of range there, modelled as no update. -/
def completeTask (s : SchedState) (app_id : Int) (now : Nat) : SchedState :=
  if 0 ≤ app_id then
    { s with openTasks :=
        s.openTasks.set app_id.toNat { s.openTasks.getD app_id.toNat default with
          taskDepartureTime := now, completed := true, active := false } }
  else s

/-- The release phase of `SchedulerOpen::threadExit` (scheduler_open.cc:511),
the parts touching the scheduler's arrays: detach the thread everywhere; for
a primary thread (`thread_id < numberOfTasks`) free the task's cores and
complete the task.  The continuation in `threadExit` below is the
empty-system prefetch: with all cores free and tasks still waiting,
either admit the queue head, or compute `nextArrivalTime` (`== 0` is the
internal-error `exit(1)`, modelled `none`), shift every waiting task's
arrival down by `nextArrivalTime - now` (UInt64 wrap), fetch and admit.  The
source calls `schedule(taskFrontOfQueue(), ...)` whose `-1` would index out
of range; `Int.toNat` keeps the model total at that unreachable point.  The
final all-completed branch only prints. -/
def threadExitRelease (appIdOf : Nat → Int) (thread_id : Nat) (now : Nat)
    (s : SchedState) : SchedState :=
  if thread_id < s.numberOfTasks then
    completeTask
      ({ s with systemCores :=
          releaseTaskCores (releaseThreadCores s.systemCores thread_id) (appIdOf thread_id) })
      (appIdOf thread_id) now
  else
    { s with systemCores := releaseThreadCores s.systemCores thread_id }

/-- The time-jump adjustment and re-fetch of `SchedulerOpen::threadExit`
(scheduler_open.cc:578-588): shift the arrival time of every waiting task
down by `nextArrivalTime - now` (UInt64 wrap) and pull the arrived tasks into
the queue. -/
def timeJumpedState (now : Nat) (s : SchedState) : SchedState :=
  let timeJump := usub64 (computeNextArrivalTime s.openTasks) now
  fetchTasksIntoQueue now { s with openTasks := adjustArrivalTimes s.openTasks timeJump }

/-- The empty-system prefetch of `SchedulerOpen::threadExit`
(scheduler_open.cc:549-595), run on the state left by the release phase:
with all cores free and tasks still waiting, either admit the queue head, or
check `nextArrivalTime` (`== 0` is the internal-error `exit(1)`, modelled
`none`), time-jump and admit.  The source calls
`schedule(taskFrontOfQueue(), ...)` whose `-1` would index out of range;
`Int.toNat` keeps the model total at that unreachable point.  The final
all-completed branch only prints. -/
def threadExitPrefetch (pol : MappingPolicy) (appIdOf : Nat → Int) (now : Nat)
    (s : SchedState) : Option SchedState :=
  if numberOfFreeCores s == s.numberOfCores && numberOfTasksWaitingToSchedule s != 0 then
    if numberOfTasksInQueue s != 0 then
      match taskFrontOfQueue s with
      | none => none
      | some front => (schedule pol appIdOf front.toNat false now s).map (·.2)
    else if numberOfTasksWaitingToSchedule s != 0 then
      if computeNextArrivalTime s.openTasks == 0 then
        none
      else
        match taskFrontOfQueue (timeJumpedState now s) with
        | none => none
        | some front =>
          (schedule pol appIdOf front.toNat false now (timeJumpedState now s)).map (·.2)
    else some s
  else some s

/-- `SchedulerOpen::threadExit` (scheduler_open.cc:511): the release phase
followed by the empty-system prefetch. -/
def threadExit (pol : MappingPolicy) (appIdOf : Nat → Int) (thread_id : Nat)
    (now : Nat) (s : SchedState) : Option SchedState :=
  threadExitPrefetch pol appIdOf now (threadExitRelease appIdOf thread_id now s)

/-- The admission drain of `SchedulerOpen::periodic` (scheduler_open.cc:789):
`while (numberOfTasksInQueue() != 0) if (!schedule(taskFrontOfQueue(), false,
time)) break;`.  Written with fuel; every continuing iteration removes the
admitted head from the queue, so `numberOfTasksInQueue + 1` steps always
finish the loop. -/
def scheduleLoop (pol : MappingPolicy) (appIdOf : Nat → Int) (now : Nat) :
    Nat → SchedState → Option SchedState
  | 0, s => some s
  | fuel + 1, s =>
    if numberOfTasksInQueue s != 0 then
      match taskFrontOfQueue s with
      | none => none
      | some front =>
        match schedule pol appIdOf front.toNat false now s with
        | none => none
        | some (ok, s') =>
          if ok then scheduleLoop pol appIdOf now fuel s' else some s'
    else
      some s

/-- The mapping-epoch part of `SchedulerOpen::periodic`
(scheduler_open.cc:781-791): at every mapping epoch `fetchTasksIntoQueue`
followed by the admission drain. -/
def periodicMapping (pol : MappingPolicy) (appIdOf : Nat → Int) (mappingEpoch : Nat)
    (now : Nat) (s : SchedState) : Option SchedState :=
  if now % mappingEpoch == 0 then
    scheduleLoop pol appIdOf now
      (numberOfTasksInQueue (fetchTasksIntoQueue now s) + 1) (fetchTasksIntoQueue now s)
  else some s

/-- `SchedulerOpen::periodic` (scheduler_open.cc:764), the parts touching the
scheduler's arrays: at every full millisecond the two consistency checks
(`exit(1)` on violation, modelled `none`; the first subtraction is on `int`,
hence over `Int`), then the mapping-epoch fetch and drain.  The per-core
quantum accounting at the end only touches host-simulator state. -/
def periodic (pol : MappingPolicy) (appIdOf : Nat → Int) (mappingEpoch : Nat)
    (now : Nat) (s : SchedState) : Option SchedState :=
  if now % 1000000 == 0 then
    if (s.numberOfCores : Int) - (totalCoreRequirementsOfActiveTasks s : Int)
        ≠ (numberOfFreeCores s : Int) then none
    else if numberOfActiveTasks s + numberOfTasksCompleted s + numberOfTasksInQueue s
        + numberOfTasksWaitingToSchedule s ≠ s.numberOfTasks then none
    else periodicMapping pol appIdOf mappingEpoch now s
  else periodicMapping pol appIdOf mappingEpoch now s

/-- The `while ((numberOfCores % coreRows) != 0) coreRows -= 1;` loop of the
constructor (scheduler_open.cc:46), descending from the start value: the
greatest `r' ≤ r` dividing `m`, and `0` when none exists. -/
def findDivisorDown (m : Nat) : Nat → Nat
  | 0 => 0
  | r + 1 => if m % (r + 1) == 0 then r + 1 else findDivisorDown m r

/-- Integer square root by downward search (an executable equivalent of
`Nat.sqrt`, proved equal in `intSqrt_eq_sqrt`): the largest `k ≤ r` with
`k * k ≤ m`. -/
def intSqrtDown (m : Nat) : Nat → Nat
  | 0 => 0
  | r + 1 => if (r + 1) * (r + 1) ≤ m then r + 1 else intSqrtDown m r

/-- Floor square root, as the `(int)sqrt(numberOfCores)` cast of the
constructor computes it (the `double` square root is exact on the `int`
range). -/
def intSqrt (m : Nat) : Nat :=
  intSqrtDown m m

/-- The grid computation of the constructor (scheduler_open.cc:45):
`coreRows = (int)sqrt(numberOfCores)` lowered to a divisor,
`coreColumns = numberOfCores / coreRows`, and `exit(1)` (modelled
`none`) when `coreRows * coreColumns != numberOfCores`. -/
def gridInit (numberOfCores : Nat) : Option (Nat × Nat) :=
  let coreRows := findDivisorDown numberOfCores (intSqrt numberOfCores)
  let coreColumns := numberOfCores / coreRows
  if coreRows * coreColumns ≠ numberOfCores then none
  else some (coreRows, coreColumns)

/-- Digit-prefix accumulator of C `atoi`. -/
def atoiDigits : List Char → Nat → Nat
  | [], acc => acc
  | c :: rest, acc =>
    if c.isDigit then atoiDigits rest (acc * 10 + (c.toNat - 48)) else acc

/-- C `atoi` on the character lists the scheduler feeds it: an optional
leading minus sign followed by a digit prefix (no surrounding whitespace
occurs in the benchmark descriptors and configuration fields). -/
def atoiChars : List Char → Int
  | '-' :: rest => -(atoiDigits rest 0 : Int)
  | l => (atoiDigits l 0 : Int)

/-- C `atoi` on a string. -/
def atoi (s : String) : Int :=
  atoiChars s.data

/-- Split a character list at every `'-'` (the effect of the
`find('-')`/`substr` sequence of `coreRequirementTranslation`, for
descriptors with at least three dashes). -/
def splitDash : List Char → List (List Char)
  | [] => [[]]
  | c :: rest =>
    match splitDash rest with
    | [] => [[]]
    | g :: gs => if c = '-' then [] :: g :: gs else (c :: g) :: gs

/-- The per-`(suite, benchmark)` profile table of
`SchedulerOpen::coreRequirementTranslation` (scheduler_open.cc:678):
the literal `int t[]` arrays; an unknown benchmark leaves the vector empty,
an unknown suite is `exit(1)` (modelled `none`). -/
def profileRequirements (suite benchmark : String) : Option (List Nat) :=
  if suite = "parsec" then
    some (if benchmark = "blackscholes" then [2, 3, 4, 5, 6, 7, 8, 9, 10, 11, 12, 13, 14, 15, 16]
      else if benchmark = "bodytrack" then [3, 4, 5, 6, 7, 8, 9, 10, 11, 12, 13, 14, 15, 16]
      else if benchmark = "canneal" then [2, 3, 4, 5, 6, 7, 8, 9, 10, 11, 12, 13, 14, 15, 16]
      else if benchmark = "dedup" then [4, 7, 10, 13, 16]
      else if benchmark = "ferret" then [7, 11, 15]
      else if benchmark = "fluidanimate" then [2, 3, 0, 5, 0, 0, 0, 9]
      else if benchmark = "streamcluster" then [2, 3, 4, 5, 6, 7, 8, 9, 10, 11, 12, 13, 14, 15, 16]
      else if benchmark = "swaptions" then [2, 3, 4, 5, 6, 7, 8, 9, 10, 11, 12, 13, 14, 15, 16]
      else if benchmark = "x264" then [1, 3, 4, 5, 6, 7, 8, 9]
      else [])
  else if suite = "splash2" then
    some (if benchmark = "barnes" then [1, 2, 3, 4, 5, 6, 7, 8, 9, 10, 11, 12, 13, 14, 15, 16]
      else if benchmark = "cholesky" then [1, 2, 3, 4, 5, 6, 7, 8, 9, 10, 11, 12, 13, 14, 15, 16]
      else if benchmark = "fft" then [1, 2, 0, 4, 0, 0, 0, 8, 0, 0, 0, 0, 0, 0, 0, 16]
      else if benchmark = "fmm" then [1, 2, 3, 4, 5, 6, 7, 8, 9, 10, 11, 12, 13, 14, 15, 16]
      else if benchmark = "lu.cont" then [1, 2, 3, 4, 5, 6, 7, 8, 9, 10, 11, 12, 13, 14, 15, 16]
      else if benchmark = "lu.ncont" then [1, 2, 3, 4, 5, 6, 7, 8, 9, 10, 11, 12, 13, 14, 15, 16]
      else if benchmark = "ocean.cont" then [1, 2, 0, 4, 0, 0, 0, 8, 0, 0, 0, 0, 0, 0, 0, 16]
      else if benchmark = "ocean.ncont" then [1, 2, 0, 4, 0, 0, 0, 8, 0, 0, 0, 0, 0, 0, 0, 16]
      else if benchmark = "radiosity" then [1, 2, 3, 4, 5, 6, 7, 8, 9, 10, 11, 12, 13, 14, 15, 16]
      else if benchmark = "radix" then [1, 2, 0, 4, 0, 0, 0, 8, 0, 0, 0, 0, 0, 0, 0, 16]
      else if benchmark = "raytrace" then [1, 2, 3, 4, 5, 6, 7, 8, 9, 10, 11, 12, 13, 14, 15, 16]
      else if benchmark = "water.nsq" then [1, 2, 3, 4, 5, 6, 7, 8, 9, 10, 11, 12, 13, 14, 15, 16]
      else if benchmark = "water.sp" then [1, 2, 0, 4, 0, 0, 0, 8, 0, 0, 0, 0, 0, 0, 0, 16]
      else [])
  else
    none

/-- `SchedulerOpen::coreRequirementTranslation` (scheduler_open.cc:663):
split the descriptor `suite-benchmark-input-parallelism` at the dashes
(everything after the third dash feeds `atoi`), reject `parallelism < 1`
(`exit(1)`, modelled `none`), look the table entry up at `parallelism - 1`,
out-of-range is `exit(1)`.  A `0` table entry is returned like any other
value. -/
def coreRequirementTranslation (compositionString : String) : Option Nat :=
  let parts := splitDash compositionString.data
  let suite := String.mk (parts.getD 0 [])
  let benchmark := String.mk (parts.getD 1 [])
  let parallelism : Int := atoiChars (List.intercalate ['-'] (parts.drop 3))
  if parallelism < 1 then none
  else
    match profileRequirements suite benchmark with
    | none => none
    | some requirements =>
      if parallelism - 1 < (requirements.length : Int) then
        some (requirements.getD (parallelism - 1).toNat 0)
      else
        none

/-- The `uniform` branch of the constructor (scheduler_open.cc:70): running
over `n` remaining tasks with current index `i` and running time `time`,
bumping the time by `arrivalInterval` whenever `i % arrivalRate == 0 && i != 0`. -/
def uniformArrivalTimesAux (arrivalRate arrivalInterval : Nat) :
    Nat → Nat → Nat → List Nat
  | 0, _, _ => []
  | n + 1, i, time =>
    let time := if i % arrivalRate == 0 && i != 0 then time + arrivalInterval else time
    time :: uniformArrivalTimesAux arrivalRate arrivalInterval n (i + 1) time

/-- Arrival times of the `uniform` distribution for tasks `0 .. n-1`. -/
def uniformArrivalTimes (arrivalRate arrivalInterval n : Nat) : List Nat :=
  uniformArrivalTimesAux arrivalRate arrivalInterval n 0 0

/-- The `poisson` branch of the constructor (scheduler_open.cc:98), with the
pseudo-random part abstracted: `raw k` is the `k`-th value drawn from the
seeded `mt19937` generator and `expOf` the composition of
`exponential_distribution` with the `(UInt64)` truncation, one generator draw
per sample.  `k` is the index of the next unconsumed draw. -/
def poissonArrivalTimesAux (expOf : Nat → Nat) (raw : Nat → Nat) (arrivalRate : Nat) :
    Nat → Nat → Nat → Nat → List Nat
  | 0, _, _, _ => []
  | n + 1, i, k, time =>
    let bump := i % arrivalRate == 0 && i != 0
    let time := if bump then time + expOf (raw k) else time
    let k' := if bump then k + 1 else k
    time :: poissonArrivalTimesAux expOf raw arrivalRate n (i + 1) k' time

/-- Arrival times of the `poisson` distribution for tasks `0 .. n-1`: the
dummy `generator()` call at scheduler_open.cc:94 consumes draw `0`, so the
samples start at draw index `1`. -/
def poissonArrivalTimes (expOf : Nat → Nat) (raw : Nat → Nat) (arrivalRate n : Nat) :
    List Nat :=
  poissonArrivalTimesAux expOf raw arrivalRate n 0 1 0

/-- The seed selection of the `poisson` branch (scheduler_open.cc:87): a
configured seed of `0` is replaced by a `std::random_device` value (the
`entropy` argument); any other configured value is used as is. -/
def poissonSeed (configuredSeed entropy : Int) : Int :=
  if configuredSeed == 0 then entropy else configuredSeed

/-- The arrival-time initialization dispatch of the constructor
(scheduler_open.cc:70-109): one of `uniform`, `explicit` (the configured
array read verbatim), `poisson` (seeded generator stream `mtStream seed`),
otherwise the unknown-distribution `exit(1)` (modelled `none`). -/
def setArrivalTimes (distribution : String) (arrivalRate arrivalInterval : Nat)
    (explicitArrivalTimes : Nat → Nat) (mtStream : Int → Nat → Nat)
    (expOf : Nat → Nat) (configuredSeed entropy : Int) (n : Nat) :
    Option (List Nat) :=
  if distribution = "uniform" then
    some (uniformArrivalTimes arrivalRate arrivalInterval n)
  else if distribution = "explicit" then
    some ((List.range n).map explicitArrivalTimes)
  else if distribution = "poisson" then
    some (poissonArrivalTimes expOf (mtStream (poissonSeed configuredSeed entropy)) arrivalRate n)
  else
    none

/-- Modelled from the spec: the `first_unused` mapping policy
(`policies/mapFirstUnused.h` is not among the sources).  Spec §4.3: walk the
configured ordered list of preferred cores and return the first
`required_count` of them that are currently available, in preference order; a
short list when fewer are available. -/
def mapFirstUnused (preferredCoresOrder : List Nat) (requiredCount : Nat)
    (available : List Bool) : List Nat :=
  (preferredCoresOrder.filter (fun i => available.getD i false)).take requiredCount

/-- The `first_unused` policy packaged with the `map` signature (task name
and active mask are ignored by this policy). -/
def firstUnusedPolicy (preferredCoresOrder : List Nat) : MappingPolicy :=
  fun _name requiredCount available _active =>
    mapFirstUnused preferredCoresOrder requiredCount available

/-- Modelled from the spec: the initial lifecycle flags of a freshly
constructed task record (`openTask`'s constructor lives in the scheduler's
header, which is not among the sources).  Spec §3: every task starts in phase
`WaitingToSchedule`; start and departure timestamps are unset (`0`). -/
def initialOpenTask (id : Nat) (name : String) (req arrival : Nat) : openTask :=
  ⟨id, name, req, arrival, 0, 0, true, false, false, false⟩

/-- Modelled from the spec: a freshly constructed core record (constructor in
the missing header).  Spec §3: no task assigned, no thread attached. -/
def initialOpenCore (i : Nat) : openCore :=
  ⟨i, -1, -1⟩

/-- A host-driven invocation of one of the public hooks. -/
inductive HookEvent where
  | create (thread_id : Nat) (now : Nat)
  | exitThread (thread_id : Nat) (now : Nat)
  | tick (now : Nat)
deriving DecidableEq

/-- Execute one hook invocation. -/
def execEvent (pol : MappingPolicy) (appIdOf : Nat → Int) (mappingEpoch : Nat)
    (s : SchedState) : HookEvent → Option SchedState
  | .create thread_id now => threadCreate pol appIdOf thread_id now s
  | .exitThread thread_id now => threadExit pol appIdOf thread_id now s
  | .tick now => periodic pol appIdOf mappingEpoch now s

/-- Execute a sequence of hook invocations; `none` as soon as one aborts. -/
def execRun (pol : MappingPolicy) (appIdOf : Nat → Int) (mappingEpoch : Nat) :
    SchedState → List HookEvent → Option SchedState
  | s, [] => some s
  | s, e :: es =>
    match execEvent pol appIdOf mappingEpoch s e with
    | none => none
    | some s' => execRun pol appIdOf mappingEpoch s' es

/-- Structural well-formedness fixed by the constructor: the three arrays
have the configured lengths. -/
def WF (s : SchedState) : Prop :=
  s.openTasks.length = s.numberOfTasks ∧
  s.systemCores.length = s.numberOfCores ∧
  s.m_core_mask.length = s.numberOfCores

/-- Number of cores currently owned by task `i`. -/
def taskCoreCount (s : SchedState) (i : Nat) : Nat :=
  s.systemCores.countP (fun c => c.assignedTaskID == (i : Int))

/-- Number of cores whose `assignedTaskID` is set. -/
def numberOfAssignedCores (s : SchedState) : Nat :=
  s.systemCores.countP (fun c => c.assignedTaskID != -1)

/-- Invariant I1 of the spec: the assigned cores are exactly accounted for by
the active tasks' core requirements. -/
def CapacityInvariant (s : SchedState) : Prop :=
  numberOfAssignedCores s = totalCoreRequirementsOfActiveTasks s

/-- Every set `assignedTaskID` names an existing task. -/
def InvRange (s : SchedState) : Prop :=
  ∀ c ∈ s.systemCores,
    c.assignedTaskID = -1 ∨ (0 ≤ c.assignedTaskID ∧ c.assignedTaskID < (s.numberOfTasks : Int))

/-- Each task owns exactly `taskCoreRequirement` cores while active and none
otherwise. -/
def InvCount (s : SchedState) : Prop :=
  ∀ i, i < s.numberOfTasks →
    taskCoreCount s i =
      (if (s.openTasks.getD i default).active then
        (s.openTasks.getD i default).taskCoreRequirement else 0)

/-- An active task is in no queue phase. -/
def InvPhase (s : SchedState) : Prop :=
  ∀ i, i < s.numberOfTasks →
    (s.openTasks.getD i default).active = true →
    (s.openTasks.getD i default).waitingInQueue = false ∧
    (s.openTasks.getD i default).waitingToSchedule = false

/-- The inductive consistency invariant of the scheduler state. -/
def Inv (s : SchedState) : Prop :=
  WF s ∧ InvRange s ∧ InvCount s ∧ InvPhase s

/-- The mapping-policy contract from the claim (spec §4.3): whenever the
policy returns at least `requiredCount` indices it returns exactly
`requiredCount` distinct indices that are all available. -/
def PolicyOK (pol : MappingPolicy) : Prop :=
  ∀ name req avail act, req ≤ (pol name req avail act).length →
    (pol name req avail act).length = req ∧
    (pol name req avail act).Nodup ∧
    ∀ i ∈ pol name req avail act, avail.getD i false = true

/-- Invariant I3 of the spec: every core with an attached thread has an
assigned task, and that thread's application id is the core's task id. -/
def ThreadInvariant (appIdOf : Nat → Int) (s : SchedState) : Prop :=
  ∀ c ∈ s.systemCores,
    c.assignedThreadID = -1 ∨
      (0 ≤ c.assignedThreadID ∧ c.assignedTaskID ≠ -1 ∧
        appIdOf c.assignedThreadID.toNat = c.assignedTaskID)

/-- The identity thread-to-application map of primary threads (spec §4.5.3:
`app_id = task_id` for primary threads). -/
def primaryAppId : Nat → Int := fun t => (t : Int)

/-- A consistent state on which `schedule` nevertheless breaks I1: one core
system plus a free core, task 0 already active and owning core 0. -/
def stateC1cx : SchedState :=
  { numberOfTasks := 1, numberOfCores := 2, queuePolicy := "FIFO",
    m_core_mask := [true, true],
    openTasks := [{ taskID := 0, taskName := "t0", taskCoreRequirement := 1,
                    taskArrivalTime := 0, taskStartTime := 0, taskDepartureTime := 0,
                    waitingToSchedule := false, waitingInQueue := false,
                    active := true, completed := false }],
    systemCores := [{ coreID := 0, assignedTaskID := 0, assignedThreadID := -1 },
                    { coreID := 1, assignedTaskID := -1, assignedThreadID := -1 }] }

/-- A queued one-task one-core state on which `schedule` succeeds. -/
def stateW1 : SchedState :=
  { numberOfTasks := 1, numberOfCores := 1, queuePolicy := "FIFO",
    m_core_mask := [true],
    openTasks := [{ taskID := 0, taskName := "t0", taskCoreRequirement := 1,
                    taskArrivalTime := 0, taskStartTime := 0, taskDepartureTime := 0,
                    waitingToSchedule := false, waitingInQueue := true,
                    active := false, completed := false }],
    systemCores := [initialOpenCore 0] }

/-- A queued task needing two cores on a one-core system: `schedule` fails the
capacity check. -/
def stateW2 : SchedState :=
  { numberOfTasks := 1, numberOfCores := 1, queuePolicy := "FIFO",
    m_core_mask := [true],
    openTasks := [{ taskID := 0, taskName := "t0", taskCoreRequirement := 2,
                    taskArrivalTime := 0, taskStartTime := 0, taskDepartureTime := 0,
                    waitingToSchedule := false, waitingInQueue := true,
                    active := false, completed := false }],
    systemCores := [initialOpenCore 0] }

/-- State for the time-jump counterexample: one core held by active task 0
(thread 0 attached), task 1 waiting with arrival time 0, task 2 waiting with
arrival time 7. -/
def stateC5cx : SchedState :=
  { numberOfTasks := 3, numberOfCores := 1, queuePolicy := "FIFO",
    m_core_mask := [true],
    openTasks := [{ taskID := 0, taskName := "t0", taskCoreRequirement := 1,
                    taskArrivalTime := 0, taskStartTime := 0, taskDepartureTime := 0,
                    waitingToSchedule := false, waitingInQueue := false,
                    active := true, completed := false },
                  initialOpenTask 1 "t1" 1 0,
                  initialOpenTask 2 "t2" 1 7],
    systemCores := [{ coreID := 0, assignedTaskID := 0, assignedThreadID := 0 }] }

/-- State for the time-jump witness: like `stateC5cx` but with nonzero
waiting arrival times 7 and 9, all of them `≥ now = 5`. -/
def stateC5w : SchedState :=
  { numberOfTasks := 3, numberOfCores := 1, queuePolicy := "FIFO",
    m_core_mask := [true],
    openTasks := [{ taskID := 0, taskName := "t0", taskCoreRequirement := 1,
                    taskArrivalTime := 0, taskStartTime := 0, taskDepartureTime := 0,
                    waitingToSchedule := false, waitingInQueue := false,
                    active := true, completed := false },
                  initialOpenTask 1 "t1" 1 7,
                  initialOpenTask 2 "t2" 1 9],
    systemCores := [{ coreID := 0, assignedTaskID := 0, assignedThreadID := 0 }] }

/-- Initial state of the FIFO counterexample run: three one-core tasks with
arrival times 0, 5 and 6 on a two-core system. -/
def stateC6init : SchedState :=
  { numberOfTasks := 3, numberOfCores := 2, queuePolicy := "FIFO",
    m_core_mask := [true, true],
    openTasks := [initialOpenTask 0 "t0" 1 0,
                  initialOpenTask 1 "t1" 1 5,
                  initialOpenTask 2 "t2" 1 6],
    systemCores := [initialOpenCore 0, initialOpenCore 1] }

/-- The FIFO counterexample run: threads created in id order but thread 1
before its task's arrival; task 2 is admitted at its creation while the
earlier-indexed task 1 is still waiting, and task 1 only enters at the next
mapping epoch. -/
def runC6 : List HookEvent :=
  [.create 0 0, .create 1 4, .create 2 6, .exitThread 0 8, .tick 10]

/-- State for the I3 counterexample: task 0 active on both cores, primary
thread 0 attached to core 0 and worker thread 5 still attached to core 1. -/
def stateC7cx : SchedState :=
  { numberOfTasks := 1, numberOfCores := 2, queuePolicy := "FIFO",
    m_core_mask := [true, true],
    openTasks := [{ taskID := 0, taskName := "t0", taskCoreRequirement := 2,
                    taskArrivalTime := 0, taskStartTime := 0, taskDepartureTime := 0,
                    waitingToSchedule := false, waitingInQueue := false,
                    active := true, completed := false }],
    systemCores := [{ coreID := 0, assignedTaskID := 0, assignedThreadID := 0 },
                    { coreID := 1, assignedTaskID := 0, assignedThreadID := 5 }] }

/-- State showing that the free-core count ignores the core mask: two
unassigned cores, one of them masked out, and a queued task needing two. -/
def stateC10 : SchedState :=
  { numberOfTasks := 1, numberOfCores := 2, queuePolicy := "FIFO",
    m_core_mask := [true, false],
    openTasks := [{ taskID := 0, taskName := "t0", taskCoreRequirement := 2,
                    taskArrivalTime := 0, taskStartTime := 0, taskDepartureTime := 0,
                    waitingToSchedule := false, waitingInQueue := true,
                    active := false, completed := false }],
    systemCores := [initialOpenCore 0, initialOpenCore 1] }

/-! ### General list helpers -/

theorem getD_set_self {α : Type} [Inhabited α] (l : List α) (i : Nat) (v : α)
    (h : i < l.length) : (l.set i v).getD i default = v := by
  rw [List.getD_eq_getElem?_getD, List.getElem?_set]
  simp [h]

theorem getD_set_ne {α : Type} [Inhabited α] (l : List α) (i j : Nat) (v : α)
    (h : i ≠ j) : (l.set i v).getD j default = l.getD j default := by
  rw [List.getD_eq_getElem?_getD, List.getElem?_set, if_neg h,
    ← List.getD_eq_getElem?_getD]

theorem getD_map_range {α : Type} (n : Nat) (f : Nat → α) (i : Nat) (d : α) :
    ((List.range n).map f).getD i d = if i < n then f i else d := by
  rw [List.getD_eq_getElem?_getD]
  by_cases h : i < n
  · rw [List.getElem?_map, List.getElem?_range h]
    simp [h]
  · rw [List.getElem?_eq_none (by simpa using h)]
    simp [h]

/-! ### C3: grid construction -/

theorem intSqrtDown_spec (m : Nat) :
    ∀ r, intSqrtDown m r * intSqrtDown m r ≤ m ∧ intSqrtDown m r ≤ r ∧
      ∀ k, k ≤ r → k * k ≤ m → k ≤ intSqrtDown m r := by
  intro r
  induction r with
  | zero =>
    refine ⟨by simp [intSqrtDown], le_refl _, ?_⟩
    intro k hk _
    simpa [intSqrtDown] using hk
  | succ n ih =>
    by_cases h : (n + 1) * (n + 1) ≤ m
    · have heq : intSqrtDown m (n + 1) = n + 1 := by simp [intSqrtDown, h]
      rw [heq]
      exact ⟨h, le_refl _, fun k hk _ => hk⟩
    · have heq : intSqrtDown m (n + 1) = intSqrtDown m n := by simp [intSqrtDown, h]
      obtain ⟨h1, h2, h3⟩ := ih
      rw [heq]
      refine ⟨h1, by omega, ?_⟩
      intro k hk hkm
      have : k ≠ n + 1 := by rintro rfl; exact h hkm
      exact h3 k (by omega) hkm

theorem intSqrt_eq_sqrt (m : Nat) : intSqrt m = Nat.sqrt m := by
  obtain ⟨h1, _, h3⟩ := intSqrtDown_spec m m
  refine le_antisymm (Nat.le_sqrt.mpr h1) ?_
  exact h3 (Nat.sqrt m) (Nat.sqrt_le_self m) (Nat.sqrt_le m)

theorem findDivisorDown_spec (m : Nat) :
    ∀ r, 0 < r →
      findDivisorDown m r ∣ m ∧ 0 < findDivisorDown m r ∧ findDivisorDown m r ≤ r ∧
      ∀ d, d ∣ m → d ≤ r → d ≤ findDivisorDown m r := by
  intro r
  induction r with
  | zero => omega
  | succ n ih =>
    intro _
    by_cases h : m % (n + 1) = 0
    · have heq : findDivisorDown m (n + 1) = n + 1 := by
        simp [findDivisorDown, h]
      rw [heq]
      exact ⟨Nat.dvd_of_mod_eq_zero h, by omega, le_refl _, fun d _ hd => hd⟩
    · have heq : findDivisorDown m (n + 1) = findDivisorDown m n := by
        simp [findDivisorDown, h]
      rcases Nat.eq_zero_or_pos n with hn | hn
      · subst hn
        exact absurd (Nat.mod_one m) h
      · obtain ⟨h1, h2, h3, h4⟩ := ih hn
        rw [heq]
        refine ⟨h1, h2, by omega, ?_⟩
        intro d hdvd hdle
        rcases Nat.lt_or_ge d (n + 1) with hlt | hge
        · exact h4 d hdvd (by omega)
        · have hdeq : d = n + 1 := by omega
          subst hdeq
          exact absurd (Nat.mod_eq_zero_of_dvd hdvd) h

/-- C3, counterexample: `numberOfCores = 7` is prime, yet the constructor's
grid computation does not abort — it yields the 1 × 7 grid, because the row
search always reaches the divisor 1 and the `exit(1)` guard is unreachable. -/
theorem C3_grid_prime_counterexample : Nat.Prime 7 ∧ gridInit 7 = some (1, 7) := by
  exact ⟨by norm_num, by decide⟩

/-- C3 (amended): for every core count `M ≥ 1` the row count is the largest
divisor of `M` not exceeding `⌊√M⌋` and the column count is `M` divided by
the row count, and startup never fails at the grid check — in particular a
prime `M` yields the `1 × M` grid instead of aborting. -/
theorem C3_gridInit_spec (M : Nat) (hM : 0 < M) :
    findDivisorDown M (Nat.sqrt M) ∣ M ∧
    0 < findDivisorDown M (Nat.sqrt M) ∧
    findDivisorDown M (Nat.sqrt M) ≤ Nat.sqrt M ∧
    (∀ d, d ∣ M → d ≤ Nat.sqrt M → d ≤ findDivisorDown M (Nat.sqrt M)) ∧
    gridInit M = some (findDivisorDown M (Nat.sqrt M), M / findDivisorDown M (Nat.sqrt M)) := by
  have hs : 0 < Nat.sqrt M := Nat.sqrt_pos.mpr hM
  obtain ⟨h1, h2, h3, h4⟩ := findDivisorDown_spec M (Nat.sqrt M) hs
  refine ⟨h1, h2, h3, h4, ?_⟩
  unfold gridInit
  rw [intSqrt_eq_sqrt]
  simp [Nat.mul_div_cancel' h1]

/-- Witness for `C3_gridInit_spec` at `M = 12`. -/
theorem C3_gridInit_spec_witness :
    0 < 12 ∧
    (findDivisorDown 12 (Nat.sqrt 12) ∣ 12 ∧
     0 < findDivisorDown 12 (Nat.sqrt 12) ∧
     findDivisorDown 12 (Nat.sqrt 12) ≤ Nat.sqrt 12 ∧
     (∀ d, d ∣ 12 → d ≤ Nat.sqrt 12 → d ≤ findDivisorDown 12 (Nat.sqrt 12)) ∧
     gridInit 12 = some (findDivisorDown 12 (Nat.sqrt 12), 12 / findDivisorDown 12 (Nat.sqrt 12))) :=
  ⟨by decide, C3_gridInit_spec 12 (by decide)⟩

/-! ### C4: zero profile entries -/

/-- C4: a task descriptor whose table entry at `parallelism - 1` is `0`
(here `parsec-fluidanimate` and `splash2-fft`, both at parallelism 3) makes
`coreRequirementTranslation` return `0` normally instead of failing with a
fatal error: none of the `exit(1)` branches fires. -/
theorem C4_zero_profile_entry_returned :
    coreRequirementTranslation "parsec-fluidanimate-simsmall-3" = some 0 ∧
    coreRequirementTranslation "splash2-fft-test-3" = some 0 := by
  exact ⟨by decide, by decide⟩

/-! ### C8 / C9: the arrival-time generator -/

theorem uniformArrivalTimesAux_getD (R I : Nat) (hR : 0 < R) :
    ∀ n i time, ((i = 0 ∧ time = 0) ∨ (0 < i ∧ time = I * ((i - 1) / R))) →
      ∀ k, k < n →
        (uniformArrivalTimesAux R I n i time).getD k 0 = I * ((i + k) / R) := by
  intro n
  induction n with
  | zero => intro i time _ k hk; omega
  | succ m ih =>
    intro i time hpre k hk
    have hbump : (if i % R == 0 && i != 0 then time + I else time) = I * (i / R) := by
      by_cases hc : (i % R == 0 && i != 0) = true
      · rw [if_pos hc]
        have hc' : i % R = 0 ∧ i ≠ 0 := by
          simpa [Bool.and_eq_true, beq_iff_eq, bne_iff_ne] using hc
        rcases hpre with ⟨hi, _⟩ | ⟨hi, ht⟩
        · exact absurd hi hc'.2
        · have hdvd : R ∣ i := Nat.dvd_iff_mod_eq_zero.mpr hc'.1
          have h1 : i - 1 + 1 = i := by omega
          have h2 := Nat.succ_div (i - 1) R
          rw [h1] at h2
          rw [ht, h2, if_pos hdvd]
          ring
      · rw [if_neg hc]
        rcases hpre with ⟨hi, ht⟩ | ⟨hi, ht⟩
        · subst hi; subst ht; simp
        · have hc' : ¬ (i % R = 0) := by
            intro hmod
            apply hc
            simp only [Bool.and_eq_true, beq_iff_eq, bne_iff_ne]
            omega
          have hdvd : ¬ R ∣ i := fun h => hc' (Nat.mod_eq_zero_of_dvd h)
          have h1 : i - 1 + 1 = i := by omega
          have h2 := Nat.succ_div (i - 1) R
          rw [h1] at h2
          rw [ht, h2, if_neg hdvd]
          norm_num
    rw [uniformArrivalTimesAux]
    cases k with
    | zero =>
      rw [List.getD_cons_zero, hbump]
      norm_num
    | succ k' =>
      rw [List.getD_cons_succ]
      have harg : (if i % R == 0 && i != 0 then time + I else time) = I * ((i + 1 - 1) / R) := by
        rw [hbump]
        norm_num
      have := ih (i + 1) _ (Or.inr ⟨by omega, harg⟩) k' (by omega)
      rw [this]
      congr 2
      omega

theorem uniformArrivalTimes_getD (R I n : Nat) (hR : 0 < R) (k : Nat) (hk : k < n) :
    (uniformArrivalTimes R I n).getD k 0 = I * (k / R) := by
  have := uniformArrivalTimesAux_getD R I hR n 0 0 (Or.inl ⟨rfl, rfl⟩) k hk
  simpa [uniformArrivalTimes] using this

theorem poissonArrivalTimesAux_mem_ge (expOf raw : Nat → Nat) (R : Nat) :
    ∀ n i k time, ∀ x ∈ poissonArrivalTimesAux expOf raw R n i k time, time ≤ x := by
  intro n
  induction n with
  | zero => intro i k time x hx; simp [poissonArrivalTimesAux] at hx
  | succ m ih =>
    intro i k time x hx
    rw [poissonArrivalTimesAux] at hx
    rcases List.mem_cons.mp hx with h | h
    · subst h
      split <;> omega
    · have := ih (i + 1) _ _ x h
      refine le_trans ?_ this
      split <;> omega

theorem poissonArrivalTimesAux_pairwise (expOf raw : Nat → Nat) (R : Nat) :
    ∀ n i k time, (poissonArrivalTimesAux expOf raw R n i k time).Pairwise (· ≤ ·) := by
  intro n
  induction n with
  | zero => intro i k time; simp [poissonArrivalTimesAux]
  | succ m ih =>
    intro i k time
    rw [poissonArrivalTimesAux]
    refine List.pairwise_cons.mpr ⟨?_, ih (i + 1) _ _⟩
    intro x hx
    exact poissonArrivalTimesAux_mem_ge expOf raw R m (i + 1) _ _ x hx

theorem poissonArrivalTimesAux_length (expOf raw : Nat → Nat) (R : Nat) :
    ∀ n i k time, (poissonArrivalTimesAux expOf raw R n i k time).length = n := by
  intro n
  induction n with
  | zero => intro i k time; simp [poissonArrivalTimesAux]
  | succ m ih =>
    intro i k time
    rw [poissonArrivalTimesAux]
    simp [ih]

theorem poissonArrivalTimes_monotone (expOf raw : Nat → Nat) (R n : Nat)
    (a b : Nat) (hab : a ≤ b) (hb : b < n) :
    (poissonArrivalTimes expOf raw R n).getD a 0 ≤ (poissonArrivalTimes expOf raw R n).getD b 0 := by
  rcases Nat.eq_or_lt_of_le hab with rfl | hlt
  · exact le_refl _
  · have hlen : (poissonArrivalTimes expOf raw R n).length = n :=
      poissonArrivalTimesAux_length expOf raw R n 0 1 0
    have hpw := poissonArrivalTimesAux_pairwise expOf raw R n 0 1 0
    have ha : a < (poissonArrivalTimes expOf raw R n).length := by omega
    have hb' : b < (poissonArrivalTimes expOf raw R n).length := by omega
    rw [List.getD_eq_getElem _ _ ha, List.getD_eq_getElem _ _ hb']
    exact (List.pairwise_iff_getElem.mp hpw) a b ha hb' hlt

theorem poissonArrivalTimesAux_rawCongr (expOf : Nat → Nat) (R : Nat) :
    ∀ n i k time (raw raw' : Nat → Nat), (∀ m, k ≤ m → raw m = raw' m) →
      poissonArrivalTimesAux expOf raw R n i k time =
      poissonArrivalTimesAux expOf raw' R n i k time := by
  intro n
  induction n with
  | zero => intro i k time raw raw' _; rfl
  | succ m ih =>
    intro i k time raw raw' hagree
    have hk : raw k = raw' k := hagree k (le_refl k)
    by_cases hbump : (i % R == 0 && i != 0) = true
    · simp only [poissonArrivalTimesAux, hbump, if_true, hk]
      congr 1
      exact ih (i + 1) (k + 1) _ raw raw' (fun m hm => hagree m (by omega))
    · have hb : (i % R == 0 && i != 0) = false := by
        revert hbump; cases (i % R == 0 && i != 0) <;> simp
      simp only [poissonArrivalTimesAux, hb, Bool.false_eq_true, if_false]
      congr 1
      exact ih (i + 1) k _ raw raw' hagree

/-- C8, counterexample: under the `explicit` distribution the configured
values are copied verbatim, so the assigned arrival sequence need not be
monotone in the task index: with `explicitArrivalTimes = [1000, 0]` task 0
receives 1000 ns and task 1 receives 0 ns. -/
theorem C8_explicit_not_monotone_counterexample :
    setArrivalTimes "explicit" 1 1000 (fun i => if i = 0 then 1000 else 0)
      (fun _ _ => 0) (fun _ => 0) 1 0 2 = some [1000, 0] ∧
    ¬ (([1000, 0] : List Nat).getD 0 0 ≤ ([1000, 0] : List Nat).getD 1 0) := by
  constructor
  · decide
  · decide

/-- C8 (amended): the `uniform` branch assigns task `k` the arrival time
`arrivalInterval * ⌊k / arrivalRate⌋`, hence a nondecreasing sequence; the
`poisson` branch is nondecreasing in the task index for every draw sequence;
the `explicit` branch copies the configured array verbatim (and is therefore
monotone only when the configuration is). -/
theorem C8_arrival_generator_spec (R I n : Nat) (hR : 0 < R) (ex : Nat → Nat)
    (mt : Int → Nat → Nat) (expOf : Nat → Nat) (seed entropy : Int) :
    (setArrivalTimes "uniform" R I ex mt expOf seed entropy n =
        some (uniformArrivalTimes R I n) ∧
      (∀ k, k < n → (uniformArrivalTimes R I n).getD k 0 = I * (k / R)) ∧
      ∀ a b, a ≤ b → b < n →
        (uniformArrivalTimes R I n).getD a 0 ≤ (uniformArrivalTimes R I n).getD b 0) ∧
    (setArrivalTimes "explicit" R I ex mt expOf seed entropy n =
        some ((List.range n).map ex)) ∧
    (setArrivalTimes "poisson" R I ex mt expOf seed entropy n =
        some (poissonArrivalTimes expOf (mt (poissonSeed seed entropy)) R n) ∧
      ∀ raw a b, a ≤ b → b < n →
        (poissonArrivalTimes expOf raw R n).getD a 0 ≤
        (poissonArrivalTimes expOf raw R n).getD b 0) := by
  refine ⟨⟨by simp [setArrivalTimes], uniformArrivalTimes_getD R I n hR, ?_⟩,
    by simp [setArrivalTimes], by simp [setArrivalTimes], ?_⟩
  · intro a b hab hb
    rw [uniformArrivalTimes_getD R I n hR a (by omega),
      uniformArrivalTimes_getD R I n hR b hb]
    exact Nat.mul_le_mul_left I (Nat.div_le_div_right hab)
  · intro raw a b hab hb
    exact poissonArrivalTimes_monotone expOf raw R n a b hab hb

/-- Witness for `C8_arrival_generator_spec` at `R = 2`, `I = 1000`, `n = 6`. -/
theorem C8_arrival_generator_spec_witness :
    0 < 2 ∧
    ((setArrivalTimes "uniform" 2 1000 (fun _ => 0) (fun _ _ => 0) (fun _ => 0) 1 0 6 =
        some (uniformArrivalTimes 2 1000 6) ∧
      (∀ k, k < 6 → (uniformArrivalTimes 2 1000 6).getD k 0 = 1000 * (k / 2)) ∧
      ∀ a b, a ≤ b → b < 6 →
        (uniformArrivalTimes 2 1000 6).getD a 0 ≤ (uniformArrivalTimes 2 1000 6).getD b 0) ∧
    (setArrivalTimes "explicit" 2 1000 (fun _ => 0) (fun _ _ => 0) (fun _ => 0) 1 0 6 =
        some ((List.range 6).map (fun _ => 0))) ∧
    (setArrivalTimes "poisson" 2 1000 (fun _ => 0) (fun _ _ => 0) (fun _ => 0) 1 0 6 =
        some (poissonArrivalTimes (fun _ => 0) ((fun _ _ => 0) (poissonSeed 1 0)) 2 6) ∧
      ∀ raw a b, a ≤ b → b < 6 →
        (poissonArrivalTimes (fun _ => 0) raw 2 6).getD a 0 ≤
        (poissonArrivalTimes (fun _ => 0) raw 2 6).getD b 0)) :=
  ⟨by decide,
    C8_arrival_generator_spec 2 1000 6 (by decide) (fun _ => 0) (fun _ _ => 0) (fun _ => 0) 1 0⟩

/-- C9: with a nonzero configured seed the poisson arrival sequence is a
deterministic function of the configuration — the `random_device` entropy is
never consulted, so two runs with identical configuration agree on every
task's arrival time — and the first draw of the seeded generator is
discarded: the sequence does not depend on draw 0. -/
theorem C9_poisson_determinism (R I n : Nat) (ex : Nat → Nat)
    (mt : Int → Nat → Nat) (expOf : Nat → Nat) (seed : Int) (hseed : seed ≠ 0)
    (e1 e2 : Int) :
    setArrivalTimes "poisson" R I ex mt expOf seed e1 n =
      setArrivalTimes "poisson" R I ex mt expOf seed e2 n ∧
    ∀ raw raw' : Nat → Nat, (∀ m, 1 ≤ m → raw m = raw' m) →
      poissonArrivalTimes expOf raw R n = poissonArrivalTimes expOf raw' R n := by
  constructor
  · have h : ∀ e : Int, poissonSeed seed e = seed := by
      intro e
      simp [poissonSeed, hseed]
    simp [setArrivalTimes, h]
  · intro raw raw' hagree
    exact poissonArrivalTimesAux_rawCongr expOf R n 0 1 0 raw raw' hagree

/-- Witness for `C9_poisson_determinism` at seed 42. -/
theorem C9_poisson_determinism_witness :
    (42 : Int) ≠ 0 ∧
    (setArrivalTimes "poisson" 1 5 (fun _ => 0) (fun s k => (s.toNat + k) % 7) (fun d => d) 42 0 4 =
      setArrivalTimes "poisson" 1 5 (fun _ => 0) (fun s k => (s.toNat + k) % 7) (fun d => d) 42 99 4 ∧
    ∀ raw raw' : Nat → Nat, (∀ m, 1 ≤ m → raw m = raw' m) →
      poissonArrivalTimes (fun d => d) raw 1 4 = poissonArrivalTimes (fun d => d) raw' 1 4) :=
  ⟨by decide,
    C9_poisson_determinism 1 5 4 (fun _ => 0) (fun s k => (s.toNat + k) % 7) (fun d => d) 42
      (by decide) 0 99⟩

/-! ### Counting lemmas for the core array operations -/

theorem countP_set_balance {α : Type} [Inhabited α] (l : List α) (i : Nat) (v : α)
    (p : α → Bool) (h : i < l.length) :
    (l.set i v).countP p + (if p (l.getD i default) then 1 else 0) =
    l.countP p + (if p v then 1 else 0) := by
  have hmem : l[i] ∈ l := List.getElem_mem h
  rw [List.countP_set p l i v h, List.getD_eq_getElem _ _ h]
  by_cases hp : p l[i] = true
  · have hpos : 0 < l.countP p := List.countP_pos_iff.mpr ⟨l[i], hmem, hp⟩
    rw [if_pos hp]
    omega
  · rw [if_neg hp]
    omega

theorem length_assignCores (best : List Nat) (cores : List openCore) (t : Nat) :
    (assignCores cores best t).length = cores.length := by
  induction best generalizing cores with
  | nil => rfl
  | cons i rest ih =>
    rw [assignCores, List.foldl_cons]
    have := ih (cores.set i { cores.getD i default with assignedTaskID := (t : Int) })
    rw [assignCores] at this
    rw [this, List.length_set]

theorem assignCores_balance (t : Nat) (p : Int → Bool) :
    ∀ (best : List Nat) (cores : List openCore), best.Nodup →
      (∀ i ∈ best, i < cores.length ∧ (cores.getD i default).assignedTaskID = -1) →
      (assignCores cores best t).countP (fun c => p c.assignedTaskID) +
        best.length * (if p (-1) then 1 else 0) =
      cores.countP (fun c => p c.assignedTaskID) +
        best.length * (if p (t : Int) then 1 else 0) := by
  intro best
  induction best with
  | nil => intro cores _ _; simp [assignCores]
  | cons i rest ih =>
    intro cores hnd hav
    obtain ⟨hilen, hifree⟩ := hav i (List.mem_cons_self i rest)
    have hstep : assignCores cores (i :: rest) t =
        assignCores (cores.set i { cores.getD i default with assignedTaskID := (t : Int) }) rest t := by
      rw [assignCores, List.foldl_cons, assignCores]
    have hnd' : rest.Nodup := (List.nodup_cons.mp hnd).2
    have hni : i ∉ rest := (List.nodup_cons.mp hnd).1
    have hav' : ∀ j ∈ rest,
        j < (cores.set i { cores.getD i default with assignedTaskID := (t : Int) }).length ∧
        ((cores.set i { cores.getD i default with assignedTaskID := (t : Int) }).getD j default).assignedTaskID = -1 := by
      intro j hj
      obtain ⟨hjlen, hjfree⟩ := hav j (List.mem_cons_of_mem _ hj)
      refine ⟨by rw [List.length_set]; exact hjlen, ?_⟩
      rw [getD_set_ne _ _ _ _ (by rintro rfl; exact hni hj)]
      exact hjfree
    have hbal := countP_set_balance cores i
      { cores.getD i default with assignedTaskID := (t : Int) }
      (fun c => p c.assignedTaskID) hilen
    have hnew : ({ cores.getD i default with assignedTaskID := (t : Int) } : openCore).assignedTaskID
        = (t : Int) := rfl
    simp only [hifree, hnew] at hbal
    have hIH := ih _ hnd' hav'
    rw [hstep]
    simp only [List.length_cons]
    by_cases hpm : p (-1) = true <;> by_cases hpt : p (t : Int) = true <;>
      simp [hpm, hpt] at hIH hbal ⊢ <;> omega

theorem releaseTaskCores_balance (app : Int) (p : Int → Bool) (cores : List openCore) :
    (releaseTaskCores cores app).countP (fun c => p c.assignedTaskID) +
      (cores.countP (fun c => c.assignedTaskID == app)) * (if p app then 1 else 0) =
    cores.countP (fun c => p c.assignedTaskID) +
      (cores.countP (fun c => c.assignedTaskID == app)) * (if p (-1) then 1 else 0) := by
  induction cores with
  | nil => simp [releaseTaskCores]
  | cons c rest ih =>
    have hstep : releaseTaskCores (c :: rest) app =
        (if c.assignedTaskID == app then { c with assignedTaskID := -1 } else c) ::
          releaseTaskCores rest app := by
      rw [releaseTaskCores, List.map_cons, releaseTaskCores]
    rw [hstep, List.countP_cons, List.countP_cons, List.countP_cons]
    by_cases hc : (c.assignedTaskID == app) = true
    · have hceq : c.assignedTaskID = app := by simpa using hc
      have h1 : (({ c with assignedTaskID := -1 } : openCore).assignedTaskID) = -1 := rfl
      simp only [if_pos hc, h1, hceq]
      by_cases hpm : p (-1) = true <;> by_cases hpa : p app = true <;>
        simp [hpm, hpa] at ih ⊢ <;> omega
    · simp only [if_neg hc]
      by_cases hpm : p (-1) = true <;> by_cases hpa : p app = true <;>
        simp [hpm, hpa] at ih ⊢ <;> omega

theorem releaseThreadCores_taskID (cores : List openCore) (tid : Nat) (p : Int → Bool) :
    (releaseThreadCores cores tid).countP (fun c => p c.assignedTaskID) =
    cores.countP (fun c => p c.assignedTaskID) := by
  rw [releaseThreadCores, List.countP_map]
  refine List.countP_congr ?_
  intro c _
  by_cases h : c.assignedThreadID == (tid : Int) <;> simp [Function.comp, h]

theorem totalCoreRequirements_foldl (tasks : List openTask) :
    ∀ n : Nat,
      tasks.foldl (fun acc t => if t.active then acc + t.taskCoreRequirement else acc) n =
      n + ((tasks.filter (fun t => t.active)).map (fun t => t.taskCoreRequirement)).sum := by
  induction tasks with
  | nil => intro n; simp
  | cons t rest ih =>
    intro n
    rw [List.foldl_cons]
    by_cases h : t.active = true
    · rw [if_pos h, ih]
      simp [List.filter_cons, h]
      omega
    · rw [if_neg h, ih]
      simp [List.filter_cons, h]

theorem activeSum_eq_range (tasks : List openTask) :
    ((tasks.filter (fun t => t.active)).map (fun t => t.taskCoreRequirement)).sum =
    ∑ i ∈ Finset.range tasks.length,
      (if (tasks.getD i default).active then (tasks.getD i default).taskCoreRequirement else 0) := by
  induction tasks with
  | nil => simp
  | cons t rest ih =>
    rw [List.length_cons, Finset.sum_range_succ']
    simp only [List.getD_cons_succ, List.getD_cons_zero]
    rw [← ih]
    by_cases h : t.active = true <;> simp [List.filter_cons, h] <;> omega

theorem countP_assigned_partition (N : Nat) :
    ∀ cores : List openCore,
      (∀ c ∈ cores, c.assignedTaskID = -1 ∨
        (0 ≤ c.assignedTaskID ∧ c.assignedTaskID < (N : Int))) →
      cores.countP (fun c => c.assignedTaskID != -1) =
      ∑ i ∈ Finset.range N, cores.countP (fun c => c.assignedTaskID == (i : Int)) := by
  intro cores
  induction cores with
  | nil => intro _; simp
  | cons c rest ih =>
    intro h
    have hrest := ih (fun x hx => h x (List.mem_cons_of_mem _ hx))
    simp only [List.countP_cons]
    rw [Finset.sum_add_distrib, ← hrest]
    rcases h c (List.mem_cons_self c rest) with hm | ⟨h0, hN⟩
    · have hz : ∀ i ∈ Finset.range N, (if (c.assignedTaskID == (i : Int)) = true then 1 else 0) = 0 := by
        intro i _
        have : (c.assignedTaskID == (i : Int)) = false := by
          rw [hm]
          simp only [beq_eq_false_iff_ne, ne_eq]
          omega
        rw [this]
        simp
      rw [Finset.sum_congr rfl hz]
      have : (c.assignedTaskID != -1) = false := by
        rw [hm]
        simp
      rw [this]
      simp
    · have hk : c.assignedTaskID = ((c.assignedTaskID.toNat : Nat) : Int) :=
        (Int.toNat_of_nonneg h0).symm
      have hkN : c.assignedTaskID.toNat < N := by omega
      have hrw : ∀ i ∈ Finset.range N,
          (if (c.assignedTaskID == (i : Int)) = true then 1 else 0) =
          (if i = c.assignedTaskID.toNat then 1 else 0) := by
        intro i _
        by_cases hie : i = c.assignedTaskID.toNat
        · subst hie
          rw [if_pos rfl, if_pos (by rw [hk]; simp)]
        · rw [if_neg hie, if_neg ?_]
          simp only [beq_iff_eq]
          intro hcontra
          apply hie
          omega
      rw [Finset.sum_congr rfl hrw, Finset.sum_ite_eq' (Finset.range N) c.assignedTaskID.toNat (fun _ => 1),
        if_pos (Finset.mem_range.mpr hkN)]
      have : (c.assignedTaskID != -1) = true := by
        simp only [bne_iff_ne, ne_eq]
        omega
      rw [this]
      simp

theorem CapacityInvariant_of_Inv (s : SchedState) (h : Inv s) : CapacityInvariant s := by
  obtain ⟨⟨hlt, _, _⟩, hrange, hcount, _⟩ := h
  unfold CapacityInvariant numberOfAssignedCores totalCoreRequirementsOfActiveTasks
  rw [countP_assigned_partition s.numberOfTasks s.systemCores hrange,
    totalCoreRequirements_foldl, activeSum_eq_range, hlt, Nat.zero_add]
  refine Finset.sum_congr rfl ?_
  intro i hi
  exact hcount i (Finset.mem_range.mp hi)

theorem assignCores_mem_range (N t : Nat) (ht : t < N) :
    ∀ (best : List Nat) (cores : List openCore),
      (∀ c ∈ cores, c.assignedTaskID = -1 ∨
        (0 ≤ c.assignedTaskID ∧ c.assignedTaskID < (N : Int))) →
      ∀ c ∈ assignCores cores best t,
        c.assignedTaskID = -1 ∨ (0 ≤ c.assignedTaskID ∧ c.assignedTaskID < (N : Int)) := by
  intro best
  induction best with
  | nil => intro cores h c hc; exact h c hc
  | cons i rest ih =>
    intro cores h c hc
    have hstep : assignCores cores (i :: rest) t =
        assignCores (cores.set i { cores.getD i default with assignedTaskID := (t : Int) }) rest t := by
      rw [assignCores, List.foldl_cons, assignCores]
    rw [hstep] at hc
    refine ih _ ?_ c hc
    intro x hx
    rcases List.mem_or_eq_of_mem_set hx with hx' | rfl
    · exact h x hx'
    · right
      refine ⟨?_, ?_⟩
      · show (0 : Int) ≤ (t : Int)
        exact Int.natCast_nonneg t
      · show (t : Int) < (N : Int)
        exact_mod_cast ht

/-! ### findIdx? helpers -/

theorem findIdx?_go_spec {α : Type} [Inhabited α] (p : α → Bool) :
    ∀ (l : List α) (s i : Nat), List.findIdx? p l s = some i →
      s ≤ i ∧ i - s < l.length ∧ p (l.getD (i - s) default) = true ∧
      ∀ j, j < i - s → p (l.getD j default) = false := by
  intro l
  induction l with
  | nil => intro s i h; simp [List.findIdx?] at h
  | cons x xs ih =>
    intro s i h
    rw [List.findIdx?_cons] at h
    by_cases hx : p x = true
    · rw [if_pos hx] at h
      have : i = s := by cases h; rfl
      subst this
      refine ⟨le_refl _, by simp, ?_, ?_⟩
      · simpa using hx
      · intro j hj
        omega
    · rw [if_neg hx] at h
      obtain ⟨h1, h2, h3, h4⟩ := ih (s + 1) i h
      have hge : 1 ≤ i - s := by omega
      refine ⟨by omega, ?_, ?_, ?_⟩
      · simp only [List.length_cons]
        omega
      · have : i - s = (i - (s + 1)) + 1 := by omega
        rw [this, List.getD_cons_succ]
        exact h3
      · intro j hj
        cases j with
        | zero =>
          rw [List.getD_cons_zero]
          simpa using hx
        | succ j' =>
          rw [List.getD_cons_succ]
          exact h4 j' (by omega)

theorem findIdx?_spec {α : Type} [Inhabited α] (p : α → Bool) (l : List α) (i : Nat)
    (h : l.findIdx? p = some i) :
    i < l.length ∧ p (l.getD i default) = true ∧
    ∀ j, j < i → p (l.getD j default) = false := by
  have := findIdx?_go_spec p l 0 i h
  simpa using this

theorem findIdx?_le_of_getD {α : Type} [Inhabited α] (p : α → Bool) (l : List α) (j : Nat)
    (hj : j < l.length) (hp : p (l.getD j default) = true) :
    ∃ i, l.findIdx? p = some i ∧ i ≤ j := by
  have hmem : l.getD j default ∈ l := by
    rw [List.getD_eq_getElem _ _ hj]
    exact List.getElem_mem hj
  have hany : l.any p = true := List.any_eq_true.mpr ⟨l.getD j default, hmem, hp⟩
  have hsome : (l.findIdx? p).isSome = true := by
    rw [List.findIdx?_isSome]
    exact hany
  obtain ⟨i, hi⟩ := Option.isSome_iff_exists.mp hsome
  refine ⟨i, hi, ?_⟩
  by_contra hgt
  obtain ⟨_, _, hmin⟩ := findIdx?_spec p l i hi
  rw [hmin j (by omega)] at hp
  cases hp

/-! ### executeMappingPolicy and setAffinity specifications -/

theorem executeMappingPolicy_false (pol : MappingPolicy) (t : Nat) (s s2 : SchedState)
    (h : executeMappingPolicy pol t s = (false, s2)) : s2 = s := by
  rw [executeMappingPolicy] at h
  split at h
  · cases h
    rfl
  · cases h

theorem executeMappingPolicy_true (pol : MappingPolicy) (hpol : PolicyOK pol) (t : Nat)
    (s s2 : SchedState) (hWF : WF s) (hrange : InvRange s) (ht : t < s.numberOfTasks)
    (h : executeMappingPolicy pol t s = (true, s2)) :
    s2.openTasks = s.openTasks ∧ s2.numberOfTasks = s.numberOfTasks ∧
    s2.numberOfCores = s.numberOfCores ∧ s2.queuePolicy = s.queuePolicy ∧
    s2.m_core_mask = s.m_core_mask ∧
    s2.systemCores.length = s.systemCores.length ∧
    InvRange s2 ∧
    taskCoreCount s2 t = taskCoreCount s t + (s.openTasks.getD t default).taskCoreRequirement ∧
    (∀ v : Int, v ≠ (t : Int) → v ≠ -1 →
      s2.systemCores.countP (fun c => c.assignedTaskID == v) =
      s.systemCores.countP (fun c => c.assignedTaskID == v)) := by
  obtain ⟨hlt, hlc, hlm⟩ := hWF
  rw [executeMappingPolicy] at h
  split at h
  · cases h
  case isFalse hnlt =>
    cases h
    set best := pol (s.openTasks.getD t default).taskName
      (s.openTasks.getD t default).taskCoreRequirement
      ((List.range s.numberOfCores).map
        (fun i => s.m_core_mask.getD i false && !(isAssignedToTask (s.systemCores.getD i default))))
      ((List.range s.numberOfCores).map
        (fun i => isAssignedToTask (s.systemCores.getD i default))) with hbest
    have hreq : (s.openTasks.getD t default).taskCoreRequirement ≤ best.length := by omega
    obtain ⟨hlen, hnodup, hav⟩ := hpol _ _ _ _ hreq
    rw [← hbest] at hlen
    have hpos : ∀ i ∈ best, i < s.systemCores.length ∧
        (s.systemCores.getD i default).assignedTaskID = -1 := by
      intro i hi
      have := hav i hi
      rw [getD_map_range] at this
      by_cases hilt : i < s.numberOfCores
      · rw [if_pos hilt] at this
        have h2 := (Bool.and_eq_true _ _).mp this
        have h3 : (isAssignedToTask (s.systemCores.getD i default)) = false := by
          have := h2.2
          revert this
          cases isAssignedToTask (s.systemCores.getD i default) <;> simp
        rw [isAssignedToTask] at h3
        refine ⟨by omega, ?_⟩
        simpa [bne_eq_false_iff_eq] using h3
      · rw [if_neg hilt] at this
        cases this
    constructor
    · rfl
    refine ⟨rfl, rfl, rfl, rfl, ?_, ?_, ?_, ?_⟩
    · exact length_assignCores best s.systemCores t
    · intro c hc
      exact assignCores_mem_range s.numberOfTasks t ht best s.systemCores hrange c hc
    · have hbal := assignCores_balance t (fun v => v == (t : Int)) best s.systemCores hnodup hpos
      have hm : ((-1 : Int) == (t : Int)) = false := by
        simp only [beq_eq_false_iff_ne, ne_eq]
        omega
      have hp : ((t : Int) == (t : Int)) = true := by simp
      unfold taskCoreCount
      simp [hm, hp] at hbal hlen ⊢
      omega
    · intro v hvt hvm
      have hbal := assignCores_balance t (fun x => x == v) best s.systemCores hnodup hpos
      have hm : ((-1 : Int) == v) = false := by
        simp only [beq_eq_false_iff_ne, ne_eq]
        omega
      have hp : ((t : Int) == v) = true → False := by
        simp only [beq_iff_eq]
        intro hcontra
        exact hvt hcontra.symm
      have hp' : ((t : Int) == v) = false := by
        revert hp
        cases ((t : Int) == v) <;> simp
      simp [hm, hp'] at hbal
      exact hbal

theorem countP_set_thread (cores : List openCore) (i : Nat) (tid : Int) (p : Int → Bool)
    (h : i < cores.length) :
    (cores.set i { cores.getD i default with assignedThreadID := tid }).countP
      (fun c => p c.assignedTaskID) = cores.countP (fun c => p c.assignedTaskID) := by
  have hbal := countP_set_balance cores i
    { cores.getD i default with assignedThreadID := tid } (fun c => p c.assignedTaskID) h
  simp at hbal ⊢
  omega

theorem setAffinity_spec (appIdOf : Nat → Int) (tid : Nat) (s : SchedState) :
    (setAffinity appIdOf tid s).2.openTasks = s.openTasks ∧
    (setAffinity appIdOf tid s).2.numberOfTasks = s.numberOfTasks ∧
    (setAffinity appIdOf tid s).2.numberOfCores = s.numberOfCores ∧
    (setAffinity appIdOf tid s).2.queuePolicy = s.queuePolicy ∧
    (setAffinity appIdOf tid s).2.m_core_mask = s.m_core_mask ∧
    (setAffinity appIdOf tid s).2.systemCores.length = s.systemCores.length ∧
    (∀ p : Int → Bool,
      (setAffinity appIdOf tid s).2.systemCores.countP (fun c => p c.assignedTaskID) =
      s.systemCores.countP (fun c => p c.assignedTaskID)) ∧
    (InvRange s → InvRange (setAffinity appIdOf tid s).2) := by
  rw [setAffinity]
  cases hfind : s.systemCores.findIdx?
      (fun c => c.assignedTaskID == appIdOf tid && c.assignedThreadID == -1) with
  | none =>
    exact ⟨rfl, rfl, rfl, rfl, rfl, rfl, fun p => rfl, fun h => h⟩
  | some i =>
    obtain ⟨hilt, _, _⟩ := findIdx?_spec _ s.systemCores i hfind
    refine ⟨rfl, rfl, rfl, rfl, rfl, List.length_set _ _ _, ?_, ?_⟩
    · intro p
      exact countP_set_thread s.systemCores i (tid : Int) p hilt
    · intro hr c hc
      rcases List.mem_or_eq_of_mem_set hc with hc' | rfl
      · exact hr c hc'
      · have hmem : s.systemCores.getD i default ∈ s.systemCores := by
          rw [List.getD_eq_getElem _ _ hilt]
          exact List.getElem_mem hilt
        have h2 := hr (s.systemCores.getD i default) hmem
        exact h2

theorem queueTask_getD_self (s : SchedState) (t : Nat) (ht : t < s.openTasks.length) :
    (queueTask s t).openTasks.getD t default =
    { s.openTasks.getD t default with waitingInQueue := true, waitingToSchedule := false } := by
  rw [queueTask]
  exact getD_set_self _ _ _ ht

theorem queueTask_getD_ne (s : SchedState) (t i : Nat) (hne : t ≠ i) :
    (queueTask s t).openTasks.getD i default = s.openTasks.getD i default := by
  rw [queueTask]
  exact getD_set_ne _ _ _ _ hne

theorem queueTask_Inv (s : SchedState) (t : Nat)
    (hInv : Inv s) (hact : (s.openTasks.getD t default).active = false) :
    Inv (queueTask s t) := by
  obtain ⟨⟨hlt, hlc, hlm⟩, hrange, hcount, hphase⟩ := hInv
  have hn : (queueTask s t).numberOfTasks = s.numberOfTasks := rfl
  refine ⟨⟨by rw [queueTask]; simpa using hlt, hlc, hlm⟩, hrange, ?_, ?_⟩
  · intro i hi
    rw [hn] at hi
    have hcores : taskCoreCount (queueTask s t) i = taskCoreCount s i := rfl
    rw [hcores]
    by_cases hit : t = i
    · subst hit
      rw [queueTask_getD_self s t (by omega)]
      simp only [hact]
      have := hcount t hi
      rw [hact] at this
      simpa using this
    · rw [queueTask_getD_ne s t i hit]
      exact hcount i hi
  · intro i hi hiact
    rw [hn] at hi
    by_cases hit : t = i
    · subst hit
      rw [queueTask_getD_self s t (by omega)] at hiact
      simp only at hiact
      rw [hact] at hiact
      cases hiact
    · rw [queueTask_getD_ne s t i hit] at hiact ⊢
      exact hphase i hi hiact

theorem schedule_false_spec (pol : MappingPolicy) (appIdOf : Nat → Int) (t : Nat)
    (b : Bool) (now : Nat) (s s' : SchedState)
    (h : schedule pol appIdOf t b now s = some (false, s')) :
    (now < (s.openTasks.getD t default).taskArrivalTime → s' = s) ∧
    ((s.openTasks.getD t default).taskArrivalTime ≤ now → s' = queueTask s t) := by
  rw [schedule] at h
  split at h
  case isTrue harr =>
    simp only [Option.some.injEq, Prod.mk.injEq] at h
    exact ⟨fun _ => h.2.symm, fun hle => by omega⟩
  case isFalse harr =>
    refine ⟨fun hlt => by omega, fun _ => ?_⟩
    cases hfq : taskFrontOfQueue (queueTask s t) with
    | none =>
      rw [hfq] at h
      cases h
    | some front =>
      rw [hfq] at h
      simp only [] at h
      split at h
      · simp only [Option.some.injEq, Prod.mk.injEq] at h
        exact h.2.symm
      · split at h
        · simp only [Option.some.injEq, Prod.mk.injEq] at h
          exact h.2.symm
        · split at h
          next s2 hemp =>
            simp only [Option.some.injEq, Prod.mk.injEq] at h
            rw [← h.2]
            exact executeMappingPolicy_false pol t _ s2 hemp
          next s2 hemp =>
            simp only [Option.some.injEq, Prod.mk.injEq] at h
            cases h.1

theorem schedule_inv (pol : MappingPolicy) (appIdOf : Nat → Int) (t : Nat)
    (b : Bool) (now : Nat) (s : SchedState) (hpol : PolicyOK pol) (hInv : Inv s)
    (ht : t < s.numberOfTasks) (hact : (s.openTasks.getD t default).active = false) :
    ∀ r s', schedule pol appIdOf t b now s = some (r, s') →
      Inv s' ∧ s'.numberOfTasks = s.numberOfTasks ∧ s'.numberOfCores = s.numberOfCores ∧
      s'.queuePolicy = s.queuePolicy ∧ s'.m_core_mask = s.m_core_mask := by
  intro r s' h
  cases r with
  | false =>
    obtain ⟨h1, h2⟩ := schedule_false_spec pol appIdOf t b now s s' h
    by_cases hle : (s.openTasks.getD t default).taskArrivalTime ≤ now
    · rw [h2 hle]
      exact ⟨queueTask_Inv s t hInv hact, rfl, rfl, rfl, rfl⟩
    · rw [h1 (by omega)]
      exact ⟨hInv, rfl, rfl, rfl, rfl⟩
  | true =>
    rw [schedule] at h
    split at h
    · simp at h
    case isFalse harr =>
      cases hfq : taskFrontOfQueue (queueTask s t) with
      | none => rw [hfq] at h; cases h
      | some front =>
        rw [hfq] at h
        simp only [] at h
        split at h
        · simp at h
        · split at h
          · simp at h
          · rcases hemp : executeMappingPolicy pol t (queueTask s t) with ⟨ok, s2⟩
            rw [hemp] at h
            cases ok with
            | false => simp at h
            | true =>
              simp only [Option.some.injEq, Prod.mk.injEq, true_and] at h
              obtain ⟨hlt0, hlc0, hlm0⟩ := hInv.1
              have hInv1 : Inv (queueTask s t) := queueTask_Inv s t hInv hact
              have hts : t < s.openTasks.length := by omega
              have hgd1 : (queueTask s t).openTasks.getD t default =
                  { s.openTasks.getD t default with
                    waitingInQueue := true, waitingToSchedule := false } :=
                queueTask_getD_self s t hts
              obtain ⟨he1, he2, he3, he4, he5, he6, he7, he8, he9⟩ :=
                executeMappingPolicy_true pol hpol t (queueTask s t) s2 hInv1.1
                  hInv1.2.1 ht hemp
              -- the count of task t in s2
              have hcnt1 : taskCoreCount (queueTask s t) t = 0 := by
                have := hInv1.2.2.1 t ht
                rw [hgd1] at this
                simp only [hact] at this
                simpa using this
              have hreq1 : ((queueTask s t).openTasks.getD t default).taskCoreRequirement =
                  (s.openTasks.getD t default).taskCoreRequirement := by
                rw [hgd1]
              have hcnt2 : taskCoreCount s2 t =
                  (s.openTasks.getD t default).taskCoreRequirement := by
                rw [he8, hcnt1, hreq1]
                omega
              -- the s3 state
              have h3 : (if !b then (setAffinity appIdOf t s2).2 else s2).openTasks = s2.openTasks ∧
                  (if !b then (setAffinity appIdOf t s2).2 else s2).numberOfTasks = s2.numberOfTasks ∧
                  (if !b then (setAffinity appIdOf t s2).2 else s2).numberOfCores = s2.numberOfCores ∧
                  (if !b then (setAffinity appIdOf t s2).2 else s2).queuePolicy = s2.queuePolicy ∧
                  (if !b then (setAffinity appIdOf t s2).2 else s2).m_core_mask = s2.m_core_mask ∧
                  (if !b then (setAffinity appIdOf t s2).2 else s2).systemCores.length = s2.systemCores.length ∧
                  (∀ p : Int → Bool,
                    (if !b then (setAffinity appIdOf t s2).2 else s2).systemCores.countP
                      (fun c => p c.assignedTaskID) =
                    s2.systemCores.countP (fun c => p c.assignedTaskID)) ∧
                  (InvRange s2 → InvRange (if !b then (setAffinity appIdOf t s2).2 else s2)) := by
                by_cases hb : (!b) = true
                · rw [if_pos hb]
                  exact setAffinity_spec appIdOf t s2
                · rw [if_neg hb]
                  exact ⟨rfl, rfl, rfl, rfl, rfl, rfl, fun p => rfl, id⟩
              obtain ⟨hf1, hf2, hf3, hf4, hf5, hf6, hf7, hf8⟩ := h3
              set s3 := if !b then (setAffinity appIdOf t s2).2 else s2 with hs3
              -- s' is the activated state
              rw [← h]
              have hlen3 : s3.openTasks.length = s.openTasks.length := by
                rw [hf1, he1, queueTask]
                simp
              have hts3 : t < s3.openTasks.length := by omega
              have hgd3 : s3.openTasks.getD t default = (queueTask s t).openTasks.getD t default := by
                rw [hf1, he1]
              have hcores3 : s3.systemCores.length = s.systemCores.length := by
                rw [hf6, he6]
                rfl
              -- field equalities of the activated state
              refine ⟨⟨⟨?_, ?_, ?_⟩, ?_, ?_, ?_⟩, ?_, ?_, ?_, ?_⟩
              · -- openTasks length
                show (s3.openTasks.set t _).length = (activateTask s3 t now).numberOfTasks
                rw [List.length_set]
                have : (activateTask s3 t now).numberOfTasks = s3.numberOfTasks := rfl
                rw [this, hf2, he2]
                rw [hlen3]
                exact hlt0
              · -- systemCores length
                show s3.systemCores.length = (activateTask s3 t now).numberOfCores
                have : (activateTask s3 t now).numberOfCores = s3.numberOfCores := rfl
                rw [this, hf3, he3, hcores3]
                exact hlc0
              · -- mask length
                show s3.m_core_mask.length = (activateTask s3 t now).numberOfCores
                have h1' : (activateTask s3 t now).numberOfCores = s3.numberOfCores := rfl
                have h2' : s3.m_core_mask = s.m_core_mask := by
                  rw [hf5, he5]
                  exact rfl
                rw [h1', hf3, he3, h2']
                have h3' : (queueTask s t).numberOfCores = s.numberOfCores := rfl
                rw [h3']
                exact hlm0
              · -- InvRange
                intro c hc
                have hr3 : InvRange s3 := hf8 he7
                have := hr3 c hc
                have hnt : (activateTask s3 t now).numberOfTasks = s3.numberOfTasks := rfl
                rw [hnt]
                exact this
              · -- InvCount
                intro i hi
                have hnt : (activateTask s3 t now).numberOfTasks = s3.numberOfTasks := rfl
                rw [hnt, hf2, he2] at hi
                have hi' : i < s.numberOfTasks := hi
                have hccA : taskCoreCount (activateTask s3 t now) i = taskCoreCount s3 i := rfl
                by_cases hit : t = i
                · subst hit
                  have hgdA : (activateTask s3 t now).openTasks.getD t default =
                      { s3.openTasks.getD t default with
                        taskStartTime := now, active := true,
                        waitingInQueue := false, waitingToSchedule := false } := by
                    rw [activateTask]
                    exact getD_set_self _ _ _ hts3
                  rw [hccA, hgdA]
                  simp only [if_true]
                  have hreqA : ({ s3.openTasks.getD t default with
                      taskStartTime := now, active := true,
                      waitingInQueue := false, waitingToSchedule := false } : openTask).taskCoreRequirement =
                      (s.openTasks.getD t default).taskCoreRequirement := by
                    have : (s3.openTasks.getD t default).taskCoreRequirement =
                        (s.openTasks.getD t default).taskCoreRequirement := by
                      rw [hgd3, hreq1]
                    exact this
                  rw [hreqA]
                  have : taskCoreCount s3 t = taskCoreCount s2 t := by
                    unfold taskCoreCount
                    exact hf7 (fun v => v == (t : Int))
                  rw [this, hcnt2]
                · have hgdA : (activateTask s3 t now).openTasks.getD i default =
                      s3.openTasks.getD i default := by
                    rw [activateTask]
                    exact getD_set_ne _ _ _ _ hit
                  have hgds : s3.openTasks.getD i default = s.openTasks.getD i default := by
                    rw [hf1, he1, queueTask_getD_ne s t i hit]
                  rw [hccA, hgdA, hgds]
                  have hc3 : taskCoreCount s3 i = taskCoreCount s2 i := by
                    unfold taskCoreCount
                    exact hf7 (fun v => v == (i : Int))
                  have hc2 : taskCoreCount s2 i = taskCoreCount (queueTask s t) i := by
                    unfold taskCoreCount
                    refine he9 (i : Int) ?_ ?_
                    · intro hcast
                      apply hit
                      exact_mod_cast hcast.symm
                    · intro hcast
                      omega
                  have hc1 : taskCoreCount (queueTask s t) i = taskCoreCount s i := rfl
                  rw [hc3, hc2, hc1]
                  exact hInv.2.2.1 i hi'
              · -- InvPhase
                intro i hi hia
                have hnt : (activateTask s3 t now).numberOfTasks = s3.numberOfTasks := rfl
                rw [hnt, hf2, he2] at hi
                by_cases hit : t = i
                · subst hit
                  have hgdA : (activateTask s3 t now).openTasks.getD t default =
                      { s3.openTasks.getD t default with
                        taskStartTime := now, active := true,
                        waitingInQueue := false, waitingToSchedule := false } := by
                    rw [activateTask]
                    exact getD_set_self _ _ _ hts3
                  rw [hgdA]
                  exact ⟨rfl, rfl⟩
                · have hgdA : (activateTask s3 t now).openTasks.getD i default =
                      s3.openTasks.getD i default := by
                    rw [activateTask]
                    exact getD_set_ne _ _ _ _ hit
                  have hgds : s3.openTasks.getD i default = s.openTasks.getD i default := by
                    rw [hf1, he1, queueTask_getD_ne s t i hit]
                  rw [hgdA, hgds] at hia ⊢
                  exact hInv.2.2.2 i hi hia
              · show (activateTask s3 t now).numberOfTasks = s.numberOfTasks
                have : (activateTask s3 t now).numberOfTasks = s3.numberOfTasks := rfl
                rw [this, hf2, he2]
                exact rfl
              · show (activateTask s3 t now).numberOfCores = s.numberOfCores
                have : (activateTask s3 t now).numberOfCores = s3.numberOfCores := rfl
                rw [this, hf3, he3]
                exact rfl
              · show (activateTask s3 t now).queuePolicy = s.queuePolicy
                have : (activateTask s3 t now).queuePolicy = s3.queuePolicy := rfl
                rw [this, hf4, he4]
                exact rfl
              · show (activateTask s3 t now).m_core_mask = s.m_core_mask
                have : (activateTask s3 t now).m_core_mask = s3.m_core_mask := rfl
                rw [this, hf5, he5]
                exact rfl

/-! ### Invariance of the remaining state transformers -/

theorem getD_map_lt {α β : Type} [Inhabited α] [Inhabited β] (f : α → β) (l : List α)
    (i : Nat) (h : i < l.length) : (l.map f).getD i default = f (l.getD i default) := by
  have h' : i < (l.map f).length := by simpa using h
  rw [List.getD_eq_getElem _ _ h', List.getD_eq_getElem _ _ h, List.getElem_map]

theorem fetchTasksIntoQueue_getD (now : Nat) (s : SchedState) (i : Nat)
    (h : i < s.openTasks.length) :
    (fetchTasksIntoQueue now s).openTasks.getD i default =
    (if (s.openTasks.getD i default).waitingToSchedule = true ∧
        (s.openTasks.getD i default).taskArrivalTime ≤ now
     then { s.openTasks.getD i default with waitingInQueue := true, waitingToSchedule := false }
     else s.openTasks.getD i default) := by
  have hmap : (fetchTasksIntoQueue now s).openTasks = s.openTasks.map (fun t =>
      if t.waitingToSchedule && t.taskArrivalTime ≤ now then
        { t with waitingInQueue := true, waitingToSchedule := false }
      else t) := rfl
  rw [hmap, getD_map_lt _ _ _ h]
  by_cases hc : (s.openTasks.getD i default).waitingToSchedule = true ∧
      (s.openTasks.getD i default).taskArrivalTime ≤ now
  · rw [if_pos hc, if_pos]
    simp only [Bool.and_eq_true, decide_eq_true_eq]
    exact hc
  · rw [if_neg hc, if_neg]
    simp only [Bool.and_eq_true, decide_eq_true_eq]
    exact hc

theorem fetchTasksIntoQueue_length (now : Nat) (s : SchedState) :
    (fetchTasksIntoQueue now s).openTasks.length = s.openTasks.length := by
  rw [fetchTasksIntoQueue]
  simp

theorem fetchTasksIntoQueue_Inv (now : Nat) (s : SchedState) (hInv : Inv s) :
    Inv (fetchTasksIntoQueue now s) := by
  obtain ⟨⟨hlt, hlc, hlm⟩, hrange, hcount, hphase⟩ := hInv
  have hnt : (fetchTasksIntoQueue now s).numberOfTasks = s.numberOfTasks := rfl
  refine ⟨⟨by rw [fetchTasksIntoQueue_length, hnt]; exact hlt, hlc, hlm⟩, hrange, ?_, ?_⟩
  · intro i hi
    rw [hnt] at hi
    have hi' : i < s.openTasks.length := by omega
    have hcc : taskCoreCount (fetchTasksIntoQueue now s) i = taskCoreCount s i := rfl
    rw [hcc, fetchTasksIntoQueue_getD now s i hi']
    by_cases hc : (s.openTasks.getD i default).waitingToSchedule = true ∧
        (s.openTasks.getD i default).taskArrivalTime ≤ now
    · rw [if_pos hc]
      have ha : ({ s.openTasks.getD i default with
          waitingInQueue := true, waitingToSchedule := false } : openTask).active =
          (s.openTasks.getD i default).active := rfl
      have hr : ({ s.openTasks.getD i default with
          waitingInQueue := true, waitingToSchedule := false } : openTask).taskCoreRequirement =
          (s.openTasks.getD i default).taskCoreRequirement := rfl
      rw [ha, hr]
      exact hcount i hi
    · rw [if_neg hc]
      exact hcount i hi
  · intro i hi hact
    rw [hnt] at hi
    have hi' : i < s.openTasks.length := by omega
    rw [fetchTasksIntoQueue_getD now s i hi'] at hact ⊢
    by_cases hc : (s.openTasks.getD i default).waitingToSchedule = true ∧
        (s.openTasks.getD i default).taskArrivalTime ≤ now
    · exfalso
      rw [if_pos hc] at hact
      have ha : ({ s.openTasks.getD i default with
          waitingInQueue := true, waitingToSchedule := false } : openTask).active =
          (s.openTasks.getD i default).active := rfl
      rw [ha] at hact
      have := hphase i hi hact
      rw [this.2] at hc
      exact absurd hc.1 (by simp)
    · rw [if_neg hc] at hact ⊢
      exact hphase i hi hact

theorem releaseThreadCores_range (cores : List openCore) (tid : Nat) (N : Int)
    (h : ∀ c ∈ cores, c.assignedTaskID = -1 ∨ (0 ≤ c.assignedTaskID ∧ c.assignedTaskID < N)) :
    ∀ c ∈ releaseThreadCores cores tid,
      c.assignedTaskID = -1 ∨ (0 ≤ c.assignedTaskID ∧ c.assignedTaskID < N) := by
  intro c hc
  rw [releaseThreadCores] at hc
  obtain ⟨x, hx, rfl⟩ := List.mem_map.mp hc
  by_cases hxc : (x.assignedThreadID == (tid : Int)) = true
  · rw [if_pos hxc]
    exact h x hx
  · rw [if_neg hxc]
    exact h x hx

theorem releaseTaskCores_range (cores : List openCore) (app : Int) (N : Int)
    (h : ∀ c ∈ cores, c.assignedTaskID = -1 ∨ (0 ≤ c.assignedTaskID ∧ c.assignedTaskID < N)) :
    ∀ c ∈ releaseTaskCores cores app,
      c.assignedTaskID = -1 ∨ (0 ≤ c.assignedTaskID ∧ c.assignedTaskID < N) := by
  intro c hc
  rw [releaseTaskCores] at hc
  obtain ⟨x, hx, rfl⟩ := List.mem_map.mp hc
  by_cases hxc : (x.assignedTaskID == app) = true
  · rw [if_pos hxc]
    left
    rfl
  · rw [if_neg hxc]
    exact h x hx

theorem threadExitRelease_Inv (appIdOf : Nat → Int) (tid now : Nat) (s : SchedState)
    (hInv : Inv s) (happ : tid < s.numberOfTasks → appIdOf tid = (tid : Int)) :
    Inv (threadExitRelease appIdOf tid now s) ∧
    (threadExitRelease appIdOf tid now s).numberOfTasks = s.numberOfTasks ∧
    (threadExitRelease appIdOf tid now s).numberOfCores = s.numberOfCores ∧
    (threadExitRelease appIdOf tid now s).queuePolicy = s.queuePolicy ∧
    (threadExitRelease appIdOf tid now s).m_core_mask = s.m_core_mask := by
  obtain ⟨⟨hlt, hlc, hlm⟩, hrange, hcount, hphase⟩ := hInv
  by_cases htid : tid < s.numberOfTasks
  case neg =>
    have hstate : threadExitRelease appIdOf tid now s =
        { s with systemCores := releaseThreadCores s.systemCores tid } := by
      rw [threadExitRelease, if_neg htid]
    rw [hstate]
    refine ⟨⟨⟨hlt, ?_, hlm⟩, ?_, ?_, ?_⟩, rfl, rfl, rfl, rfl⟩
    · show (releaseThreadCores s.systemCores tid).length = s.numberOfCores
      rw [releaseThreadCores]
      simpa using hlc
    · intro c hc
      exact releaseThreadCores_range _ _ _ hrange c hc
    · intro i hi
      have hthread := releaseThreadCores_taskID s.systemCores tid (fun v => v == (i : Int))
      unfold taskCoreCount
      show (releaseThreadCores s.systemCores tid).countP _ = _
      rw [hthread]
      exact hcount i hi
    · intro i hi hact
      exact hphase i hi hact
  case pos =>
    have happ' := happ htid
    have htoN : ((tid : Int)).toNat = tid := by simp
    have h0le : (0 : Int) ≤ (tid : Int) := by positivity
    have hstate : threadExitRelease appIdOf tid now s =
        { s with
          systemCores := releaseTaskCores (releaseThreadCores s.systemCores tid) (tid : Int),
          openTasks := s.openTasks.set tid { s.openTasks.getD tid default with
            taskDepartureTime := now, completed := true, active := false } } := by
      rw [threadExitRelease, if_pos htid, happ', completeTask, if_pos h0le, htoN]
    have hOT : (threadExitRelease appIdOf tid now s).openTasks =
        s.openTasks.set tid { s.openTasks.getD tid default with
          taskDepartureTime := now, completed := true, active := false } := by
      rw [hstate]
    have hSC : (threadExitRelease appIdOf tid now s).systemCores =
        releaseTaskCores (releaseThreadCores s.systemCores tid) (tid : Int) := by
      rw [hstate]
    have hNT : (threadExitRelease appIdOf tid now s).numberOfTasks = s.numberOfTasks := by
      rw [hstate]
    have hNC : (threadExitRelease appIdOf tid now s).numberOfCores = s.numberOfCores := by
      rw [hstate]
    have hQP : (threadExitRelease appIdOf tid now s).queuePolicy = s.queuePolicy := by
      rw [hstate]
    have hCM : (threadExitRelease appIdOf tid now s).m_core_mask = s.m_core_mask := by
      rw [hstate]
    have hcnt_rel : ∀ j : Nat,
        (releaseTaskCores (releaseThreadCores s.systemCores tid) (tid : Int)).countP
          (fun c => c.assignedTaskID == (j : Int)) =
        (if j = tid then 0 else taskCoreCount s j) := by
      intro j
      have hb := releaseTaskCores_balance (tid : Int) (fun v => v == (j : Int))
        (releaseThreadCores s.systemCores tid)
      have hthr1 := releaseThreadCores_taskID s.systemCores tid (fun v => v == (j : Int))
      have hm : ((-1 : Int) == (j : Int)) = false := by
        simp only [beq_eq_false_iff_ne, ne_eq]
        omega
      by_cases hjt : j = tid
      · rw [if_pos hjt]
        subst hjt
        have hp : (((j : Nat) : Int) == (j : Int)) = true := by simp
        simp only [hp, hm, eq_self_iff_true, Bool.false_eq_true, if_true, if_false,
          mul_one, mul_zero, add_zero] at hb
        omega
      · rw [if_neg hjt]
        have hp : (((tid : Nat) : Int) == (j : Int)) = false := by
          simp only [beq_eq_false_iff_ne, ne_eq]
          intro hcast
          exact hjt (by exact_mod_cast hcast.symm)
        simp only [hp, hm, Bool.false_eq_true, if_false, mul_zero, add_zero] at hb
        unfold taskCoreCount
        omega
    refine ⟨⟨⟨?_, ?_, ?_⟩, ?_, ?_, ?_⟩, hNT, hNC, hQP, hCM⟩
    · rw [hOT, hNT, List.length_set]
      exact hlt
    · rw [hSC, hNC, releaseTaskCores, releaseThreadCores]
      simpa using hlc
    · rw [hCM, hNC]
      exact hlm
    · intro c hc
      rw [hSC] at hc
      rw [hNT]
      exact releaseTaskCores_range _ _ _ (releaseThreadCores_range _ _ _ hrange) c hc
    · intro i hi
      rw [hNT] at hi
      unfold taskCoreCount
      rw [hSC, hOT, hcnt_rel i]
      by_cases hit : tid = i
      · subst hit
        rw [getD_set_self _ _ _ (by omega), if_pos rfl]
        have hactf : ({ s.openTasks.getD tid default with
            taskDepartureTime := now, completed := true, active := false } : openTask).active = false := rfl
        rw [hactf]
        simp
      · rw [getD_set_ne _ _ _ _ hit, if_neg (fun h => hit h.symm)]
        exact hcount i hi
    · intro i hi hact
      rw [hNT] at hi
      rw [hOT] at hact ⊢
      by_cases hit : tid = i
      · subst hit
        rw [getD_set_self _ _ _ (by omega)] at hact
        cases hact
      · rw [getD_set_ne _ _ _ _ hit] at hact ⊢
        exact hphase i hi hact

theorem usub64_cancel (a n : Nat) (ha : a < 2 ^ 64) (hn : n < 2 ^ 64) :
    usub64 a (usub64 a n) = n := by
  unfold usub64
  omega

theorem usub64_of_le (a b : Nat) (ha : a < 2 ^ 64) (hle : b ≤ a) :
    usub64 a b = a - b := by
  unfold usub64
  omega

theorem option_map_snd_eq_some {o : Option (Bool × SchedState)} {s' : SchedState}
    (h : o.map (·.2) = some s') : ∃ r, o = some (r, s') := by
  cases o with
  | none => cases h
  | some p =>
    obtain ⟨r, st⟩ := p
    have hred : (some (r, st) : Option (Bool × SchedState)).map (·.2) = some st := rfl
    rw [hred] at h
    injection h with h2
    exact ⟨r, by rw [h2]⟩

theorem taskFrontOfQueue_queued (s : SchedState) (front : Int)
    (hWF : s.openTasks.length = s.numberOfTasks)
    (hq : numberOfTasksInQueue s ≠ 0)
    (hfq : taskFrontOfQueue s = some front) :
    0 ≤ front ∧ front.toNat < s.numberOfTasks ∧
    (s.openTasks.getD front.toNat default).waitingInQueue = true := by
  rw [taskFrontOfQueue] at hfq
  split at hfq
  · cases hidx : s.openTasks.findIdx? (fun t => t.waitingInQueue) with
    | none =>
      exfalso
      apply hq
      rw [numberOfTasksInQueue]
      rw [List.countP_eq_zero]
      intro u hu
      have := List.findIdx?_eq_none_iff.mp hidx u hu
      simp [this]
    | some k =>
      rw [hidx] at hfq
      simp only [Option.some.injEq] at hfq
      obtain ⟨hk1, hk2, _⟩ := findIdx?_spec _ s.openTasks k hidx
      subst hfq
      refine ⟨by positivity, ?_, ?_⟩
      · simp only [Int.toNat_natCast]
        omega
      · simp only [Int.toNat_natCast]
        exact hk2
  · cases hfq

theorem queued_not_active (s : SchedState) (k : Nat) (hInv : Inv s)
    (hk : k < s.numberOfTasks)
    (hq : (s.openTasks.getD k default).waitingInQueue = true) :
    (s.openTasks.getD k default).active = false := by
  by_contra hA
  have hA' : (s.openTasks.getD k default).active = true := by
    revert hA
    cases (s.openTasks.getD k default).active <;> simp
  have := hInv.2.2.2 k hk hA'
  rw [this.1] at hq
  cases hq

theorem scheduleLoop_Inv (pol : MappingPolicy) (appIdOf : Nat → Int) (now : Nat)
    (hpol : PolicyOK pol) :
    ∀ (fuel : Nat) (s : SchedState), Inv s →
      ∀ s', scheduleLoop pol appIdOf now fuel s = some s' → Inv s' := by
  intro fuel
  induction fuel with
  | zero =>
    intro s hInv s' h
    simp only [scheduleLoop, Option.some.injEq] at h
    rw [← h]
    exact hInv
  | succ n ih =>
    intro s hInv s' h
    rw [scheduleLoop] at h
    split at h
    case isFalse =>
      simp only [Option.some.injEq] at h
      rw [← h]
      exact hInv
    case isTrue hqb =>
      have hq : numberOfTasksInQueue s ≠ 0 := by
        simpa [bne_iff_ne] using hqb
      cases hfq : taskFrontOfQueue s with
      | none =>
        rw [hfq] at h
        cases h
      | some front =>
        rw [hfq] at h
        simp only [] at h
        obtain ⟨hge, hlt, hqd⟩ := taskFrontOfQueue_queued s front hInv.1.1 hq hfq
        have hact := queued_not_active s front.toNat hInv hlt hqd
        cases hsch : schedule pol appIdOf front.toNat false now s with
        | none =>
          rw [hsch] at h
          cases h
        | some p =>
          obtain ⟨ok, s1⟩ := p
          rw [hsch] at h
          have hIs := schedule_inv pol appIdOf front.toNat false now s hpol hInv hlt hact
            ok s1 hsch
          cases ok with
          | true =>
            simp only [if_true] at h
            exact ih s1 hIs.1 s' h
          | false =>
            simp only [Bool.false_eq_true, if_false, Option.some.injEq] at h
            rw [← h]
            exact hIs.1

theorem adjustArrivalTimes_getD (tasks : List openTask) (j i : Nat) (h : i < tasks.length) :
    (adjustArrivalTimes tasks j).getD i default =
    (if (tasks.getD i default).waitingToSchedule = true then
      { tasks.getD i default with
        taskArrivalTime := usub64 (tasks.getD i default).taskArrivalTime j }
     else tasks.getD i default) := by
  have hmap : adjustArrivalTimes tasks j = tasks.map (fun t =>
      if t.waitingToSchedule then { t with taskArrivalTime := usub64 t.taskArrivalTime j }
      else t) := rfl
  rw [hmap, getD_map_lt _ _ _ h]

theorem adjustArrivalTimes_length (tasks : List openTask) (j : Nat) :
    (adjustArrivalTimes tasks j).length = tasks.length := by
  rw [adjustArrivalTimes]
  simp

theorem adjustState_Inv (s : SchedState) (j : Nat) (hInv : Inv s) :
    Inv { s with openTasks := adjustArrivalTimes s.openTasks j } := by
  obtain ⟨⟨hlt, hlc, hlm⟩, hrange, hcount, hphase⟩ := hInv
  refine ⟨⟨?_, hlc, hlm⟩, hrange, ?_, ?_⟩
  · show (adjustArrivalTimes s.openTasks j).length = s.numberOfTasks
    rw [adjustArrivalTimes_length]
    exact hlt
  · intro i hi
    have hi' : i < s.openTasks.length := by
      have : ({ s with openTasks := adjustArrivalTimes s.openTasks j }).numberOfTasks
          = s.numberOfTasks := rfl
      rw [this] at hi
      omega
    have hcc : taskCoreCount { s with openTasks := adjustArrivalTimes s.openTasks j } i =
        taskCoreCount s i := rfl
    have hgd : ({ s with openTasks := adjustArrivalTimes s.openTasks j }).openTasks.getD i default
        = (adjustArrivalTimes s.openTasks j).getD i default := rfl
    rw [hcc, hgd, adjustArrivalTimes_getD s.openTasks j i hi']
    by_cases hw : (s.openTasks.getD i default).waitingToSchedule = true
    · rw [if_pos hw]
      have ha : ({ s.openTasks.getD i default with
          taskArrivalTime := usub64 (s.openTasks.getD i default).taskArrivalTime j } : openTask).active
          = (s.openTasks.getD i default).active := rfl
      have hr : ({ s.openTasks.getD i default with
          taskArrivalTime := usub64 (s.openTasks.getD i default).taskArrivalTime j } : openTask).taskCoreRequirement
          = (s.openTasks.getD i default).taskCoreRequirement := rfl
      rw [ha, hr]
      exact hcount i hi
    · rw [if_neg hw]
      exact hcount i hi
  · intro i hi hact
    have hi' : i < s.openTasks.length := by
      have : ({ s with openTasks := adjustArrivalTimes s.openTasks j }).numberOfTasks
          = s.numberOfTasks := rfl
      rw [this] at hi
      omega
    have hgd : ({ s with openTasks := adjustArrivalTimes s.openTasks j }).openTasks.getD i default
        = (adjustArrivalTimes s.openTasks j).getD i default := rfl
    rw [hgd, adjustArrivalTimes_getD s.openTasks j i hi'] at hact ⊢
    by_cases hw : (s.openTasks.getD i default).waitingToSchedule = true
    · rw [if_pos hw] at hact ⊢
      have ha : ({ s.openTasks.getD i default with
          taskArrivalTime := usub64 (s.openTasks.getD i default).taskArrivalTime j } : openTask).active
          = (s.openTasks.getD i default).active := rfl
      rw [ha] at hact
      have := hphase i hi hact
      rw [this.2] at hw
      cases hw
    · rw [if_neg hw] at hact ⊢
      exact hphase i hi hact

theorem computeNextArrivalTime_cases (tasks : List openTask) :
    computeNextArrivalTime tasks = 0 ∨
    ∃ u ∈ tasks, u.waitingToSchedule = true ∧
      computeNextArrivalTime tasks = u.taskArrivalTime := by
  suffices hgen : ∀ (l : List openTask) (acc : Nat),
      l.foldl (fun acc t =>
        if t.waitingToSchedule then
          if acc == 0 then t.taskArrivalTime
          else if acc > t.taskArrivalTime then t.taskArrivalTime
          else acc
        else acc) acc = acc ∨
      ∃ u ∈ l, u.waitingToSchedule = true ∧
        l.foldl (fun acc t =>
          if t.waitingToSchedule then
            if acc == 0 then t.taskArrivalTime
            else if acc > t.taskArrivalTime then t.taskArrivalTime
            else acc
          else acc) acc = u.taskArrivalTime by
    rcases hgen tasks 0 with h | ⟨u, hu, hw, he⟩
    · left
      exact h
    · right
      exact ⟨u, hu, hw, he⟩
  intro l
  induction l with
  | nil => intro acc; left; rfl
  | cons t rest ih =>
    intro acc
    rw [List.foldl_cons]
    have hstep : (if t.waitingToSchedule then
        if acc == 0 then t.taskArrivalTime
        else if acc > t.taskArrivalTime then t.taskArrivalTime
        else acc
      else acc) = acc ∨
      (t.waitingToSchedule = true ∧ (if t.waitingToSchedule then
        if acc == 0 then t.taskArrivalTime
        else if acc > t.taskArrivalTime then t.taskArrivalTime
        else acc
      else acc) = t.taskArrivalTime) := by
      by_cases hw : t.waitingToSchedule = true
      · rw [if_pos hw]
        by_cases h0 : (acc == 0) = true
        · rw [if_pos h0]
          right
          exact ⟨hw, rfl⟩
        · rw [if_neg h0]
          by_cases hgt : acc > t.taskArrivalTime
          · rw [if_pos hgt]
            right
            exact ⟨hw, rfl⟩
          · rw [if_neg hgt]
            left
            rfl
      · rw [if_neg hw]
        left
        rfl
    rcases hstep with he | ⟨hw, he⟩
    · rw [he]
      rcases ih acc with h | ⟨u, hu, huw, hue⟩
      · left
        exact h
      · right
        exact ⟨u, List.mem_cons_of_mem _ hu, huw, hue⟩
    · rw [he]
      rcases ih t.taskArrivalTime with h | ⟨u, hu, huw, hue⟩
      · right
        exact ⟨t, List.mem_cons_self t rest, hw, h⟩
      · right
        exact ⟨u, List.mem_cons_of_mem _ hu, huw, hue⟩

theorem timeJumpedState_queue_nonempty (now : Nat) (s : SchedState)
    (hbound : ∀ u ∈ s.openTasks, u.taskArrivalTime < 2 ^ 64) (hnow : now < 2 ^ 64)
    (hnz : computeNextArrivalTime s.openTasks ≠ 0) :
    numberOfTasksInQueue (timeJumpedState now s) ≠ 0 := by
  rcases computeNextArrivalTime_cases s.openTasks with h | ⟨u, hu, hw, he⟩
  · exact absurd h hnz
  · have hcanc : usub64 u.taskArrivalTime (usub64 (computeNextArrivalTime s.openTasks) now) = now := by
      rw [he]
      exact usub64_cancel u.taskArrivalTime now (hbound u hu) hnow
    have hJrfl : (timeJumpedState now s).openTasks =
        ((s.openTasks.map (fun t => if t.waitingToSchedule then { t with taskArrivalTime := usub64 t.taskArrivalTime (usub64 (computeNextArrivalTime s.openTasks) now) } else t)).map
          (fun t => if t.waitingToSchedule && t.taskArrivalTime ≤ now then { t with waitingInQueue := true, waitingToSchedule := false } else t)) := rfl
    intro h0
    rw [numberOfTasksInQueue, hJrfl, List.map_map] at h0
    have hnot := List.countP_eq_zero.mp h0 _ (List.mem_map_of_mem _ hu)
    apply hnot
    simp only [Function.comp_apply]
    have hf1 : (if u.waitingToSchedule then ({ u with taskArrivalTime := usub64 u.taskArrivalTime (usub64 (computeNextArrivalTime s.openTasks) now) } : openTask) else u) = { u with taskArrivalTime := now } := by
      rw [if_pos hw, hcanc]
    rw [hf1]
    have hcond : (({ u with taskArrivalTime := now } : openTask).waitingToSchedule && decide (({ u with taskArrivalTime := now } : openTask).taskArrivalTime ≤ now)) = true := by
      simp [hw]
    rw [if_pos hcond]

theorem schedule_out_of_range (pol : MappingPolicy) (appIdOf : Nat → Int) (t : Nat)
    (b : Bool) (now : Nat) (s : SchedState)
    (hWF : s.openTasks.length = s.numberOfTasks) (ht : s.numberOfTasks ≤ t) :
    ∀ r s', schedule pol appIdOf t b now s = some (r, s') → r = false ∧ s' = s := by
  intro r s' h
  rw [schedule] at h
  split at h
  · simp only [Option.some.injEq, Prod.mk.injEq] at h
    exact ⟨h.1.symm, h.2.symm⟩
  case isFalse harr =>
    have hqeq : queueTask s t = s := by
      rw [queueTask, List.set_eq_of_length_le (by omega)]
    rw [hqeq] at h
    cases hfq : taskFrontOfQueue s with
    | none =>
      rw [hfq] at h
      cases h
    | some front =>
      have hfront : front ≠ (t : Int) := by
        rw [taskFrontOfQueue] at hfq
        split at hfq
        · cases hidx : s.openTasks.findIdx? (fun u => u.waitingInQueue) with
          | none =>
            rw [hidx] at hfq
            simp only [Option.some.injEq] at hfq
            rw [← hfq]
            intro hcontra
            omega
          | some k =>
            rw [hidx] at hfq
            simp only [Option.some.injEq] at hfq
            obtain ⟨hk1, -, -⟩ := findIdx?_spec _ s.openTasks k hidx
            rw [← hfq]
            intro hcontra
            have : k = t := by exact_mod_cast hcontra
            omega
        · cases hfq
      rw [hfq] at h
      simp only [] at h
      rw [if_pos hfront] at h
      simp only [Option.some.injEq, Prod.mk.injEq] at h
      exact ⟨h.1.symm, h.2.symm⟩

theorem threadExitPrefetch_Inv (pol : MappingPolicy) (appIdOf : Nat → Int) (now : Nat)
    (s : SchedState) (hpol : PolicyOK pol) (hInv : Inv s)
    (hnow : now < 2 ^ 64) (hbound : ∀ u ∈ s.openTasks, u.taskArrivalTime < 2 ^ 64) :
    ∀ s', threadExitPrefetch pol appIdOf now s = some s' → Inv s' := by
  intro s' h
  rw [threadExitPrefetch] at h
  split at h
  case isFalse =>
    simp only [Option.some.injEq] at h
    rw [← h]
    exact hInv
  case isTrue hguard =>
    split at h
    case isTrue hqb =>
      have hq : numberOfTasksInQueue s ≠ 0 := by simpa [bne_iff_ne] using hqb
      cases hfq : taskFrontOfQueue s with
      | none =>
        rw [hfq] at h
        cases h
      | some front =>
        rw [hfq] at h
        simp only [] at h
        obtain ⟨r, hsch⟩ := option_map_snd_eq_some h
        obtain ⟨hge, hlt, hqd⟩ := taskFrontOfQueue_queued s front hInv.1.1 hq hfq
        have hact := queued_not_active s front.toNat hInv hlt hqd
        exact (schedule_inv pol appIdOf front.toNat false now s hpol hInv hlt hact r s' hsch).1
    case isFalse hqb =>
      split at h
      case isFalse =>
        simp only [Option.some.injEq] at h
        rw [← h]
        exact hInv
      case isTrue hwb =>
        split at h
        · cases h
        case isFalse hnzb =>
          have hnz : computeNextArrivalTime s.openTasks ≠ 0 := by
            simpa using hnzb
          have hJrfl : timeJumpedState now s = fetchTasksIntoQueue now { s with openTasks := adjustArrivalTimes s.openTasks (usub64 (computeNextArrivalTime s.openTasks) now) } := rfl
          have hInvJ : Inv (timeJumpedState now s) := by
            rw [hJrfl]
            exact fetchTasksIntoQueue_Inv _ _ (adjustState_Inv s _ hInv)
          have hqJ := timeJumpedState_queue_nonempty now s hbound hnow hnz
          cases hfq : taskFrontOfQueue (timeJumpedState now s) with
          | none =>
            rw [hfq] at h
            cases h
          | some front =>
            rw [hfq] at h
            simp only [] at h
            obtain ⟨r, hsch⟩ := option_map_snd_eq_some h
            obtain ⟨hge, hlt, hqd⟩ := taskFrontOfQueue_queued _ front hInvJ.1.1 hqJ hfq
            have hact := queued_not_active _ front.toNat hInvJ hlt hqd
            exact (schedule_inv pol appIdOf front.toNat false now _ hpol hInvJ hlt hact
              r s' hsch).1

theorem threadExit_Inv (pol : MappingPolicy) (appIdOf : Nat → Int) (tid now : Nat)
    (s : SchedState) (hpol : PolicyOK pol) (hInv : Inv s)
    (happ : tid < s.numberOfTasks → appIdOf tid = (tid : Int))
    (hnow : now < 2 ^ 64) (hbound : ∀ u ∈ s.openTasks, u.taskArrivalTime < 2 ^ 64) :
    ∀ s', threadExit pol appIdOf tid now s = some s' → Inv s' := by
  intro s' h
  rw [threadExit] at h
  obtain ⟨hIR, -, -, -, -⟩ := threadExitRelease_Inv appIdOf tid now s hInv happ
  have hboundR : ∀ u ∈ (threadExitRelease appIdOf tid now s).openTasks,
      u.taskArrivalTime < 2 ^ 64 := by
    by_cases htid : tid < s.numberOfTasks
    · have happ' := happ htid
      have h0le : (0 : Int) ≤ (tid : Int) := by positivity
      have htoN : ((tid : Int)).toNat = tid := by simp
      have hstate : (threadExitRelease appIdOf tid now s).openTasks =
          s.openTasks.set tid { s.openTasks.getD tid default with
            taskDepartureTime := now, completed := true, active := false } := by
        rw [threadExitRelease, if_pos htid, happ', completeTask, if_pos h0le, htoN]
      intro u hu
      rw [hstate] at hu
      rcases List.mem_or_eq_of_mem_set hu with hu' | rfl
      · exact hbound u hu'
      · have harr : ({ s.openTasks.getD tid default with
            taskDepartureTime := now, completed := true, active := false } : openTask).taskArrivalTime =
            (s.openTasks.getD tid default).taskArrivalTime := rfl
        rw [harr]
        have hts : tid < s.openTasks.length := by
          have := hInv.1.1
          omega
        have hmem : s.openTasks.getD tid default ∈ s.openTasks := by
          rw [List.getD_eq_getElem _ _ hts]
          exact List.getElem_mem hts
        exact hbound _ hmem
    · have hstate : (threadExitRelease appIdOf tid now s).openTasks = s.openTasks := by
        rw [threadExitRelease, if_neg htid]
      intro u hu
      rw [hstate] at hu
      exact hbound u hu
  exact threadExitPrefetch_Inv pol appIdOf now _ hpol hIR hnow hboundR s' h

theorem threadCreate_Inv (pol : MappingPolicy) (appIdOf : Nat → Int) (tid now : Nat)
    (s : SchedState) (hpol : PolicyOK pol) (hInv : Inv s)
    (hact : tid < s.numberOfTasks → (s.openTasks.getD tid default).active = false) :
    ∀ s', threadCreate pol appIdOf tid now s = some s' → Inv s' := by
  intro s' h
  have hsetInv : ∀ s2 : SchedState, Inv s2 → Inv (setAffinity appIdOf tid s2).2 := by
    intro s2 hI2
    obtain ⟨hsa1, hsa2, hsa3, hsa4, hsa5, hsa6, hsa7, hsa8⟩ := setAffinity_spec appIdOf tid s2
    obtain ⟨⟨l1, l2, l3⟩, hr, hc, hp⟩ := hI2
    refine ⟨⟨?_, ?_, ?_⟩, hsa8 hr, ?_, ?_⟩
    · rw [hsa1, hsa2]
      exact l1
    · rw [hsa6, hsa3]
      exact l2
    · rw [hsa5, hsa3]
      exact l3
    · intro i hi
      rw [hsa2] at hi
      have h1 := hsa7 (fun v => v == (i : Int))
      have h2 := hc i hi
      rw [hsa1]
      exact h1.trans h2
    · intro i hi hA
      rw [hsa2] at hi
      rw [hsa1] at hA ⊢
      exact hp i hi hA
  rw [threadCreate] at h
  split at h
  case isTrue h0 =>
    have h0' : tid = 0 := by simpa using h0
    subst h0'
    cases hsch : schedule pol appIdOf 0 true now s with
    | none =>
      rw [hsch] at h
      cases h
    | some p =>
      obtain ⟨ok, s1⟩ := p
      rw [hsch] at h
      cases ok with
      | false => simp at h
      | true =>
        simp only [if_true, Option.some.injEq] at h
        rw [← h]
        apply hsetInv
        by_cases hN : 0 < s.numberOfTasks
        · exact (schedule_inv pol appIdOf 0 true now s hpol hInv hN (hact hN) true s1 hsch).1
        · obtain ⟨hr, -⟩ := schedule_out_of_range pol appIdOf 0 true now s hInv.1.1
            (by omega) true s1 hsch
          cases hr
  case isFalse h0 =>
    split at h
    case isTrue htN =>
      cases hsch : schedule pol appIdOf tid true now s with
      | none =>
        rw [hsch] at h
        cases h
      | some p =>
        obtain ⟨ok, s1⟩ := p
        rw [hsch] at h
        simp only [Option.some.injEq] at h
        rw [← h]
        exact hsetInv s1 (schedule_inv pol appIdOf tid true now s hpol hInv htN
          (hact htN) ok s1 hsch).1
    case isFalse htN =>
      simp only [Option.some.injEq] at h
      rw [← h]
      exact hsetInv s hInv

theorem periodic_Inv (pol : MappingPolicy) (appIdOf : Nat → Int) (mappingEpoch now : Nat)
    (s : SchedState) (hpol : PolicyOK pol) (hInv : Inv s) :
    ∀ s', periodic pol appIdOf mappingEpoch now s = some s' → Inv s' := by
  intro s' h
  have hmain : ∀ s'', periodicMapping pol appIdOf mappingEpoch now s = some s'' → Inv s'' := by
    intro s'' h'
    rw [periodicMapping] at h'
    split at h'
    · exact scheduleLoop_Inv pol appIdOf now hpol _ _ (fetchTasksIntoQueue_Inv now s hInv) s'' h'
    · simp only [Option.some.injEq] at h'
      rw [← h']
      exact hInv
  rw [periodic] at h
  split at h
  · split at h
    · cases h
    · split at h
      · cases h
      · exact hmain s' h
  · exact hmain s' h

theorem PolicyOK_firstUnused (P : List Nat) (hP : P.Nodup) :
    PolicyOK (firstUnusedPolicy P) := by
  intro name req avail act hlen
  refine ⟨?_, ?_, ?_⟩
  · have h1 : (firstUnusedPolicy P name req avail act).length =
        min req (P.filter (fun i => avail.getD i false)).length :=
      List.length_take _ _
    omega
  · exact List.Nodup.sublist (List.take_sublist _ _) (List.Nodup.filter _ hP)
  · intro i hi
    have hmem : i ∈ P.filter (fun j => avail.getD j false) := List.mem_of_mem_take hi
    exact (List.mem_filter.mp hmem).2

theorem Inv_stateW1 : Inv stateW1 := by
  unfold Inv WF InvRange InvCount InvPhase
  decide

/-- **C1**, counterexample: the capacity invariant I1 is NOT preserved by every
hook under the policy contract alone.  From the consistent state `stateC1cx`
(task 0 active and owning core 0, core 1 free), a further `schedule` call for
the already-active task 0 succeeds and maps a second core to it, after which
the number of assigned cores (2) differs from the active tasks' core
requirements (1).  The source queues the task and maps it without checking its
phase (scheduler_open.cc:399-431). -/
theorem C1_capacity_counterexample :
    PolicyOK (firstUnusedPolicy [0, 1]) ∧ Inv stateC1cx ∧
    ∃ s', schedule (firstUnusedPolicy [0, 1]) primaryAppId 0 false 0 stateC1cx =
        some (true, s') ∧ ¬ CapacityInvariant s' := by
  refine ⟨PolicyOK_firstUnused [0, 1] (by decide),
    by unfold Inv WF InvRange InvCount InvPhase; decide, _, rfl,
    by unfold CapacityInvariant; decide⟩

/-- **C1**, amended: under the mapping-policy contract `PolicyOK`, every public
hook (`schedule`, `threadCreate`, `threadExit`, `periodic`) preserves the full
consistency invariant `Inv` — hence, by `CapacityInvariant_of_Inv`, on return
the number of cores with `assignedTaskID` set equals the sum of the active
tasks' core requirements — PROVIDED `schedule` (and the `threadCreate` that
calls it) is only invoked for an in-range task that is not already active (the
amendment: the unamended claim fails on `C1_capacity_counterexample`), with
thread app-ids given by the primary map and arrival times and `now` below
`2^64`. -/
theorem C1_capacity_after_hooks (pol : MappingPolicy) (appIdOf : Nat → Int)
    (s : SchedState) (hpol : PolicyOK pol) (hInv : Inv s)
    (now : Nat) (hnow : now < 2 ^ 64)
    (hbound : ∀ u ∈ s.openTasks, u.taskArrivalTime < 2 ^ 64)
    (happ : ∀ tid : Nat, tid < s.numberOfTasks → appIdOf tid = (tid : Int)) :
    (∀ t r s', t < s.numberOfTasks → (s.openTasks.getD t default).active = false →
        schedule pol appIdOf t false now s = some (r, s') → CapacityInvariant s') ∧
    (∀ tid s', (tid < s.numberOfTasks → (s.openTasks.getD tid default).active = false) →
        threadCreate pol appIdOf tid now s = some s' → CapacityInvariant s') ∧
    (∀ tid s', threadExit pol appIdOf tid now s = some s' → CapacityInvariant s') ∧
    (∀ epoch s', periodic pol appIdOf epoch now s = some s' → CapacityInvariant s') := by
  refine ⟨?_, ?_, ?_, ?_⟩
  · intro t r s' ht hact h
    exact CapacityInvariant_of_Inv s'
      (schedule_inv pol appIdOf t false now s hpol hInv ht hact r s' h).1
  · intro tid s' hact h
    exact CapacityInvariant_of_Inv s'
      (threadCreate_Inv pol appIdOf tid now s hpol hInv hact s' h)
  · intro tid s' h
    exact CapacityInvariant_of_Inv s'
      (threadExit_Inv pol appIdOf tid now s hpol hInv (happ tid) hnow hbound s' h)
  · intro epoch s' h
    exact CapacityInvariant_of_Inv s'
      (periodic_Inv pol appIdOf epoch now s hpol hInv s' h)

/-- **C1**, witness: on the concrete queued state `stateW1` with the
`first_unused` policy the `periodic` hook succeeds and the capacity invariant
holds on its result. -/
theorem C1_capacity_after_hooks_witness :
    ∃ s', periodic (firstUnusedPolicy [0]) primaryAppId 1 0 stateW1 = some s' ∧
      CapacityInvariant s' := by
  obtain ⟨-, -, -, hper⟩ := C1_capacity_after_hooks (firstUnusedPolicy [0]) primaryAppId
    stateW1 (PolicyOK_firstUnused [0] (by decide)) Inv_stateW1 0 (by decide) (by decide)
    (fun tid _ => rfl)
  exact ⟨_, rfl, hper 1 _ rfl⟩

/-- **C2**: when `schedule` returns `false` it is atomic: before the task's
arrival time the state is returned unchanged; from the arrival time on the
task is left exactly in phase Queued (`waitingInQueue`, not
`waitingToSchedule`); and in every `false` return no core assignment changes
and the task's start time and `active` flag keep their values. -/
theorem C2_schedule_failure_atomic (pol : MappingPolicy) (appIdOf : Nat → Int)
    (t : Nat) (b : Bool) (now : Nat) (s s' : SchedState)
    (ht : t < s.openTasks.length)
    (h : schedule pol appIdOf t b now s = some (false, s')) :
    (now < (s.openTasks.getD t default).taskArrivalTime → s' = s) ∧
    ((s.openTasks.getD t default).taskArrivalTime ≤ now →
      (s'.openTasks.getD t default).waitingInQueue = true ∧
      (s'.openTasks.getD t default).waitingToSchedule = false) ∧
    s'.systemCores = s.systemCores ∧
    (s'.openTasks.getD t default).taskStartTime =
      (s.openTasks.getD t default).taskStartTime ∧
    (s'.openTasks.getD t default).active = (s.openTasks.getD t default).active := by
  obtain ⟨h1, h2⟩ := schedule_false_spec pol appIdOf t b now s s' h
  by_cases harr : now < (s.openTasks.getD t default).taskArrivalTime
  · have hs := h1 harr
    subst hs
    exact ⟨fun _ => rfl, fun hle => absurd harr (by omega), rfl, rfl, rfl⟩
  · have hq := h2 (by omega)
    subst hq
    have hself := queueTask_getD_self s t ht
    refine ⟨fun hlt => absurd hlt harr, fun _ => ?_, rfl, ?_, ?_⟩
    · rw [hself]
      exact ⟨rfl, rfl⟩
    · rw [hself]
    · rw [hself]

/-- **C2** witness: on `stateW2` (queued task needing two cores on one core)
the capacity check fails, and the failing `schedule` leaves the task Queued
with the cores untouched. -/
theorem C2_schedule_failure_atomic_witness :
    ∃ s', schedule (firstUnusedPolicy [0]) primaryAppId 0 false 0 stateW2 =
        some (false, s') ∧
      (s'.openTasks.getD 0 default).waitingInQueue = true ∧
      s'.systemCores = stateW2.systemCores := by
  have h := C2_schedule_failure_atomic (firstUnusedPolicy [0]) primaryAppId 0 false 0 stateW2
    (queueTask stateW2 0) (by decide) rfl
  exact ⟨queueTask stateW2 0, rfl, (h.2.1 (by decide)).1, h.2.2.1⟩

/-- **C10**: `numberOfFreeCores` counts exactly the cores with no
`assignedTaskID` — so free + assigned = M — and is independent of the core
mask; consequently on `stateC10` (cores 0 and 1 unassigned, core 1 masked out,
task 0 queued needing two cores) the capacity check `req ≤ freeCores` passes
while no policy satisfying the `PolicyOK` contract can map the task:
`schedule` returns `false` for every such policy. -/
theorem C10_freeCores_ignores_mask (s : SchedState) (mask : List Bool)
    (hlen : s.systemCores.length = s.numberOfCores) :
    (numberOfFreeCores s + numberOfAssignedCores s = s.numberOfCores ∧
     numberOfFreeCores { s with m_core_mask := mask } = numberOfFreeCores s) ∧
    ((stateC10.openTasks.getD 0 default).taskCoreRequirement ≤
        numberOfFreeCores stateC10 ∧
     ∀ pol, PolicyOK pol → ∀ r s',
       schedule pol primaryAppId 0 false 0 stateC10 = some (r, s') → r = false) := by
  refine ⟨⟨?_, rfl⟩, by decide, ?_⟩
  · unfold numberOfFreeCores numberOfAssignedCores
    rw [← hlen]
    induction s.systemCores with
    | nil => rfl
    | cons c tl ih =>
      rw [List.countP_cons, List.countP_cons, List.length_cons]
      have hbne : (c.assignedTaskID != -1) = !(c.assignedTaskID == -1) := rfl
      rw [hbne]
      cases hb : (c.assignedTaskID == -1) <;> simp [hb] <;> omega
  · intro pol hpol r s' h
    rw [schedule] at h
    rw [if_neg (by decide)] at h
    have hfq : taskFrontOfQueue (queueTask stateC10 0) = some 0 := rfl
    rw [hfq] at h
    simp only [] at h
    rw [if_neg (by decide), if_neg (by decide)] at h
    have hred : executeMappingPolicy pol 0 (queueTask stateC10 0) =
        (if (pol "t0" 2 [true, false] [false, false]).length < 2 then
          (false, queueTask stateC10 0)
        else (true, { queueTask stateC10 0 with
            systemCores := assignCores (queueTask stateC10 0).systemCores
              (pol "t0" 2 [true, false] [false, false]) 0 })) := rfl
    by_cases hl : (pol "t0" 2 [true, false] [false, false]).length < 2
    · rw [hred, if_pos hl] at h
      simp only [] at h
      simp only [Option.some.injEq, Prod.mk.injEq] at h
      exact h.1.symm
    · exfalso
      obtain ⟨hlen2, hnd, hmem⟩ := hpol "t0" 2 [true, false] [false, false] (by omega)
      have hz : ∀ i ∈ pol "t0" 2 [true, false] [false, false], i = 0 := by
        intro i hi
        have hgi := hmem i hi
        rcases i with _ | i
        · rfl
        · rcases i with _ | i
          · exact absurd hgi (by decide)
          · rw [List.getD_cons_succ, List.getD_cons_succ, List.getD_nil] at hgi
            exact absurd hgi (by decide)
      cases hr : pol "t0" 2 [true, false] [false, false] with
      | nil =>
        rw [hr, List.length_nil] at hlen2
        exact absurd hlen2 (by decide)
      | cons a tl =>
        cases tl with
        | nil =>
          rw [hr, List.length_cons, List.length_nil] at hlen2
          omega
        | cons b tl2 =>
          rw [hr] at hnd hz
          have ha : a = 0 := hz a (List.mem_cons_self a (b :: tl2))
          have hb : b = 0 := hz b (List.mem_cons_of_mem a (List.mem_cons_self b tl2))
          obtain ⟨hna, -⟩ := List.nodup_cons.mp hnd
          apply hna
          rw [ha, hb]
          exact List.mem_cons_self 0 tl2

/-- **C10** witness: on `stateC10` the free-core identity holds with both
cores counted free although core 1 is masked out. -/
theorem C10_freeCores_ignores_mask_witness :
    numberOfFreeCores stateC10 + numberOfAssignedCores stateC10 =
      stateC10.numberOfCores ∧
    numberOfFreeCores { stateC10 with m_core_mask := [true, true] } =
      numberOfFreeCores stateC10 :=
  (C10_freeCores_ignores_mask stateC10 [true, true] rfl).1

theorem assignCores_threadInv (appIdOf : Nat → Int) (t : Nat) :
    ∀ (best : List Nat) (cores : List openCore),
      (∀ c ∈ cores, c.assignedThreadID = -1 ∨
        (0 ≤ c.assignedThreadID ∧ c.assignedTaskID ≠ -1 ∧
          appIdOf c.assignedThreadID.toNat = c.assignedTaskID)) →
      (∀ i ∈ best, (cores.getD i default).assignedThreadID = -1) →
      ∀ c ∈ assignCores cores best t, c.assignedThreadID = -1 ∨
        (0 ≤ c.assignedThreadID ∧ c.assignedTaskID ≠ -1 ∧
          appIdOf c.assignedThreadID.toNat = c.assignedTaskID) := by
  intro best
  induction best with
  | nil =>
    intro cores hI _ c hc
    exact hI c hc
  | cons b bs ih =>
    intro cores hI hth c hc
    have hstep : assignCores cores (b :: bs) t =
        assignCores (cores.set b { cores.getD b default with assignedTaskID := (t : Int) }) bs t :=
      rfl
    rw [hstep] at hc
    refine ih _ ?_ ?_ c hc
    · intro c' hc'
      rcases List.mem_or_eq_of_mem_set hc' with hcm | rfl
      · exact hI c' hcm
      · left
        have hthr : ({ cores.getD b default with assignedTaskID := (t : Int) } : openCore).assignedThreadID =
            (cores.getD b default).assignedThreadID := rfl
        rw [hthr]
        exact hth b (List.mem_cons_self b bs)
    · intro i hib
      by_cases hbl : b < cores.length
      · by_cases hbi : b = i
        · subst hbi
          rw [getD_set_self _ _ _ hbl]
          exact hth b (List.mem_cons_self b bs)
        · rw [getD_set_ne _ _ _ _ hbi]
          exact hth i (List.mem_cons_of_mem b hib)
      · rw [List.set_eq_of_length_le (by omega)]
        exact hth i (List.mem_cons_of_mem b hib)

theorem executeMappingPolicy_threadInv (pol : MappingPolicy) (appIdOf : Nat → Int)
    (hpol : PolicyOK pol) (t : Nat) (s s2 : SchedState)
    (hlc : s.systemCores.length = s.numberOfCores)
    (hTI : ThreadInvariant appIdOf s)
    (h : executeMappingPolicy pol t s = (true, s2)) :
    ThreadInvariant appIdOf s2 := by
  rw [executeMappingPolicy] at h
  split at h
  · cases h
  case isFalse hnlt =>
    cases h
    set best := pol (s.openTasks.getD t default).taskName
      (s.openTasks.getD t default).taskCoreRequirement
      ((List.range s.numberOfCores).map
        (fun i => s.m_core_mask.getD i false && !(isAssignedToTask (s.systemCores.getD i default))))
      ((List.range s.numberOfCores).map
        (fun i => isAssignedToTask (s.systemCores.getD i default))) with hbest
    have hreq : (s.openTasks.getD t default).taskCoreRequirement ≤ best.length := by omega
    obtain ⟨-, -, hav⟩ := hpol _ _ _ _ hreq
    have hth : ∀ i ∈ best, (s.systemCores.getD i default).assignedThreadID = -1 := by
      intro i hi
      have hthis := hav i hi
      rw [getD_map_range] at hthis
      by_cases hilt : i < s.numberOfCores
      · rw [if_pos hilt] at hthis
        have h2 := (Bool.and_eq_true _ _).mp hthis
        have h3 : (isAssignedToTask (s.systemCores.getD i default)) = false := by
          have h4 := h2.2
          revert h4
          cases isAssignedToTask (s.systemCores.getD i default) <;> simp
        rw [isAssignedToTask] at h3
        have htask : (s.systemCores.getD i default).assignedTaskID = -1 := by
          simpa [bne_eq_false_iff_eq] using h3
        have hmem : s.systemCores.getD i default ∈ s.systemCores := by
          rw [List.getD_eq_getElem _ _ (by omega : i < s.systemCores.length)]
          exact List.getElem_mem _
        rcases hTI _ hmem with hok | ⟨-, hne, -⟩
        · exact hok
        · exact absurd htask hne
      · rw [if_neg hilt] at hthis
        cases hthis
    intro c hc
    exact assignCores_threadInv appIdOf t best s.systemCores hTI hth c hc

theorem setAffinity_threadInv (appIdOf : Nat → Int) (tid : Nat) (s : SchedState)
    (h0 : 0 ≤ appIdOf tid) (hTI : ThreadInvariant appIdOf s) :
    ThreadInvariant appIdOf (setAffinity appIdOf tid s).2 := by
  rw [setAffinity]
  cases hfind : s.systemCores.findIdx?
      (fun c => c.assignedTaskID == appIdOf tid && c.assignedThreadID == -1) with
  | none => exact hTI
  | some i =>
    obtain ⟨hilt, hpi, -⟩ := findIdx?_spec _ s.systemCores i hfind
    intro c hc
    rcases List.mem_or_eq_of_mem_set hc with hcm | rfl
    · exact hTI c hcm
    · right
      obtain ⟨hb1, hb2⟩ := (Bool.and_eq_true _ _).mp hpi
      have htask : (s.systemCores.getD i default).assignedTaskID = appIdOf tid := by
        simpa using hb1
      have hc1 : ({ s.systemCores.getD i default with assignedThreadID := (tid : Int) } : openCore).assignedThreadID = (tid : Int) := rfl
      have hc2 : ({ s.systemCores.getD i default with assignedThreadID := (tid : Int) } : openCore).assignedTaskID = (s.systemCores.getD i default).assignedTaskID := rfl
      rw [hc1, hc2, htask]
      refine ⟨Int.natCast_nonneg tid, by omega, ?_⟩
      have htn : ((tid : Int)).toNat = tid := by simp
      rw [htn]

theorem schedule_threadInv (pol : MappingPolicy) (appIdOf : Nat → Int) (t : Nat)
    (b : Bool) (now : Nat) (s : SchedState) (hpol : PolicyOK pol)
    (hlc : s.systemCores.length = s.numberOfCores)
    (h0 : 0 ≤ appIdOf t) (hTI : ThreadInvariant appIdOf s) :
    ∀ r s', schedule pol appIdOf t b now s = some (r, s') → ThreadInvariant appIdOf s' := by
  intro r s' h
  cases r with
  | false =>
    obtain ⟨h1, h2⟩ := schedule_false_spec pol appIdOf t b now s s' h
    by_cases harr : now < (s.openTasks.getD t default).taskArrivalTime
    · rw [h1 harr]
      exact hTI
    · rw [h2 (by omega)]
      exact hTI
  | true =>
    rw [schedule] at h
    split at h
    · simp only [Option.some.injEq, Prod.mk.injEq] at h
      cases h.1
    case isFalse harr =>
      cases hfq : taskFrontOfQueue (queueTask s t) with
      | none =>
        rw [hfq] at h
        cases h
      | some front =>
        rw [hfq] at h
        simp only [] at h
        split at h
        · simp only [Option.some.injEq, Prod.mk.injEq] at h
          cases h.1
        · split at h
          · simp only [Option.some.injEq, Prod.mk.injEq] at h
            cases h.1
          · cases hemp : executeMappingPolicy pol t (queueTask s t) with
            | mk ok s2 =>
              rw [hemp] at h
              cases ok with
              | false =>
                simp only [Option.some.injEq, Prod.mk.injEq] at h
                cases h.1
              | true =>
                simp only [Option.some.injEq, Prod.mk.injEq] at h
                obtain ⟨-, hs'⟩ := h
                have hTI2 : ThreadInvariant appIdOf s2 :=
                  executeMappingPolicy_threadInv pol appIdOf hpol t (queueTask s t) s2
                    hlc hTI hemp
                rw [← hs']
                cases b with
                | true =>
                  have hred : activateTask (if !true then (setAffinity appIdOf t s2).2 else s2) t now =
                      activateTask s2 t now := rfl
                  rw [hred]
                  exact hTI2
                | false =>
                  have hred : activateTask (if !false then (setAffinity appIdOf t s2).2 else s2) t now =
                      activateTask (setAffinity appIdOf t s2).2 t now := rfl
                  rw [hred]
                  exact setAffinity_threadInv appIdOf t s2 h0 hTI2

theorem scheduleLoop_threadInv (pol : MappingPolicy) (appIdOf : Nat → Int) (now : Nat)
    (hpol : PolicyOK pol) (happ : ∀ u : Nat, 0 ≤ appIdOf u) :
    ∀ (fuel : Nat) (s : SchedState), Inv s → ThreadInvariant appIdOf s →
      ∀ s', scheduleLoop pol appIdOf now fuel s = some s' → ThreadInvariant appIdOf s' := by
  intro fuel
  induction fuel with
  | zero =>
    intro s hInv hTI s' h
    simp only [scheduleLoop, Option.some.injEq] at h
    rw [← h]
    exact hTI
  | succ n ih =>
    intro s hInv hTI s' h
    rw [scheduleLoop] at h
    split at h
    case isFalse =>
      simp only [Option.some.injEq] at h
      rw [← h]
      exact hTI
    case isTrue hqb =>
      have hq : numberOfTasksInQueue s ≠ 0 := by
        simpa [bne_iff_ne] using hqb
      cases hfq : taskFrontOfQueue s with
      | none =>
        rw [hfq] at h
        cases h
      | some front =>
        rw [hfq] at h
        simp only [] at h
        obtain ⟨hge, hlt, hqd⟩ := taskFrontOfQueue_queued s front hInv.1.1 hq hfq
        have hact := queued_not_active s front.toNat hInv hlt hqd
        cases hsch : schedule pol appIdOf front.toNat false now s with
        | none =>
          rw [hsch] at h
          cases h
        | some p =>
          obtain ⟨ok, s1⟩ := p
          rw [hsch] at h
          have hIs := schedule_inv pol appIdOf front.toNat false now s hpol hInv hlt hact
            ok s1 hsch
          have hTIs := schedule_threadInv pol appIdOf front.toNat false now s hpol
            hInv.1.2.1 (happ front.toNat) hTI ok s1 hsch
          cases ok with
          | true =>
            simp only [if_true] at h
            exact ih s1 hIs.1 hTIs s' h
          | false =>
            simp only [Bool.false_eq_true, if_false, Option.some.injEq] at h
            rw [← h]
            exact hTIs

theorem releaseThreadCores_threadInv (appIdOf : Nat → Int) (tid : Nat)
    (cores : List openCore)
    (hTI : ∀ c ∈ cores, c.assignedThreadID = -1 ∨
      (0 ≤ c.assignedThreadID ∧ c.assignedTaskID ≠ -1 ∧
        appIdOf c.assignedThreadID.toNat = c.assignedTaskID)) :
    ∀ c ∈ releaseThreadCores cores tid, c.assignedThreadID = -1 ∨
      (0 ≤ c.assignedThreadID ∧ c.assignedTaskID ≠ -1 ∧
        appIdOf c.assignedThreadID.toNat = c.assignedTaskID) := by
  intro c hc
  rw [releaseThreadCores] at hc
  obtain ⟨c0, hc0, hmap⟩ := List.mem_map.mp hc
  by_cases hb : (c0.assignedThreadID == (tid : Int)) = true
  · rw [if_pos hb] at hmap
    rw [← hmap]
    left
    rfl
  · rw [if_neg hb] at hmap
    rw [← hmap]
    exact hTI c0 hc0

theorem releaseTaskCores_threadInv (appIdOf : Nat → Int) (app : Int)
    (cores : List openCore)
    (hTI : ∀ c ∈ cores, c.assignedThreadID = -1 ∨
      (0 ≤ c.assignedThreadID ∧ c.assignedTaskID ≠ -1 ∧
        appIdOf c.assignedThreadID.toNat = c.assignedTaskID))
    (hfree : ∀ c ∈ cores, c.assignedTaskID = app → c.assignedThreadID = -1) :
    ∀ c ∈ releaseTaskCores cores app, c.assignedThreadID = -1 ∨
      (0 ≤ c.assignedThreadID ∧ c.assignedTaskID ≠ -1 ∧
        appIdOf c.assignedThreadID.toNat = c.assignedTaskID) := by
  intro c hc
  rw [releaseTaskCores] at hc
  obtain ⟨c0, hc0, hmap⟩ := List.mem_map.mp hc
  by_cases hb : (c0.assignedTaskID == app) = true
  · rw [if_pos hb] at hmap
    rw [← hmap]
    left
    have hthr : ({ c0 with assignedTaskID := -1 } : openCore).assignedThreadID =
        c0.assignedThreadID := rfl
    rw [hthr]
    exact hfree c0 hc0 (by simpa using hb)
  · rw [if_neg hb] at hmap
    rw [← hmap]
    exact hTI c0 hc0

theorem threadExitRelease_threadInv (appIdOf : Nat → Int) (tid now : Nat) (s : SchedState)
    (hTI : ThreadInvariant appIdOf s)
    (honly : ∀ c ∈ s.systemCores, c.assignedTaskID = appIdOf tid →
      c.assignedThreadID = -1 ∨ c.assignedThreadID = (tid : Int)) :
    ThreadInvariant appIdOf (threadExitRelease appIdOf tid now s) := by
  by_cases htid : tid < s.numberOfTasks
  · have hstate : (threadExitRelease appIdOf tid now s).systemCores =
        releaseTaskCores (releaseThreadCores s.systemCores tid) (appIdOf tid) := by
      rw [threadExitRelease, if_pos htid, completeTask]
      split <;> rfl
    intro c hc
    rw [hstate] at hc
    refine releaseTaskCores_threadInv appIdOf (appIdOf tid)
      (releaseThreadCores s.systemCores tid)
      (releaseThreadCores_threadInv appIdOf tid s.systemCores hTI) ?_ c hc
    intro c' hc'
    rw [releaseThreadCores] at hc'
    obtain ⟨c0, hc0, hmap⟩ := List.mem_map.mp hc'
    intro htask
    by_cases hb : (c0.assignedThreadID == (tid : Int)) = true
    · rw [if_pos hb] at hmap
      rw [← hmap]
    · rw [if_neg hb] at hmap
      rw [← hmap] at htask ⊢
      rcases honly c0 hc0 htask with h1 | h2
      · exact h1
      · exact absurd (show (c0.assignedThreadID == (tid : Int)) = true by simpa using h2) hb
  · have hstate : (threadExitRelease appIdOf tid now s).systemCores =
        releaseThreadCores s.systemCores tid := by
      rw [threadExitRelease, if_neg htid]
    intro c hc
    rw [hstate] at hc
    exact releaseThreadCores_threadInv appIdOf tid s.systemCores hTI c hc

theorem threadExitPrefetch_threadInv (pol : MappingPolicy) (appIdOf : Nat → Int)
    (now : Nat) (s : SchedState) (hpol : PolicyOK pol)
    (hlc : s.systemCores.length = s.numberOfCores)
    (happ0 : ∀ u : Nat, 0 ≤ appIdOf u)
    (hTI : ThreadInvariant appIdOf s) :
    ∀ s', threadExitPrefetch pol appIdOf now s = some s' → ThreadInvariant appIdOf s' := by
  intro s' h
  rw [threadExitPrefetch] at h
  split at h
  case isFalse =>
    simp only [Option.some.injEq] at h
    rw [← h]
    exact hTI
  case isTrue hguard =>
    split at h
    case isTrue hqb =>
      cases hfq : taskFrontOfQueue s with
      | none =>
        rw [hfq] at h
        cases h
      | some front =>
        rw [hfq] at h
        simp only [] at h
        obtain ⟨r, hsch⟩ := option_map_snd_eq_some h
        exact schedule_threadInv pol appIdOf front.toNat false now s hpol hlc
          (happ0 _) hTI r s' hsch
    case isFalse hqb =>
      split at h
      case isFalse =>
        simp only [Option.some.injEq] at h
        rw [← h]
        exact hTI
      case isTrue hwb =>
        split at h
        · cases h
        case isFalse hnzb =>
          cases hfq : taskFrontOfQueue (timeJumpedState now s) with
          | none =>
            rw [hfq] at h
            cases h
          | some front =>
            rw [hfq] at h
            simp only [] at h
            obtain ⟨r, hsch⟩ := option_map_snd_eq_some h
            have hTIJ : ThreadInvariant appIdOf (timeJumpedState now s) := hTI
            have hlcJ : (timeJumpedState now s).systemCores.length =
                (timeJumpedState now s).numberOfCores := hlc
            exact schedule_threadInv pol appIdOf front.toNat false now
              (timeJumpedState now s) hpol hlcJ (happ0 _) hTIJ r s' hsch

theorem threadExit_threadInv (pol : MappingPolicy) (appIdOf : Nat → Int)
    (tid now : Nat) (s : SchedState) (hpol : PolicyOK pol) (hInv : Inv s)
    (happ : ∀ u : Nat, appIdOf u = (u : Int))
    (hTI : ThreadInvariant appIdOf s)
    (honly : ∀ c ∈ s.systemCores, c.assignedTaskID = appIdOf tid →
      c.assignedThreadID = -1 ∨ c.assignedThreadID = (tid : Int)) :
    ∀ s', threadExit pol appIdOf tid now s = some s' → ThreadInvariant appIdOf s' := by
  intro s' h
  rw [threadExit] at h
  have happ0 : ∀ u : Nat, 0 ≤ appIdOf u := by
    intro u
    rw [happ u]
    exact Int.natCast_nonneg u
  have hTIR := threadExitRelease_threadInv appIdOf tid now s hTI honly
  have hlcR : (threadExitRelease appIdOf tid now s).systemCores.length =
      (threadExitRelease appIdOf tid now s).numberOfCores :=
    (threadExitRelease_Inv appIdOf tid now s hInv (fun _ => happ tid)).1.1.2.1
  exact threadExitPrefetch_threadInv pol appIdOf now _ hpol hlcR happ0 hTIR s' h

theorem threadCreate_threadInv (pol : MappingPolicy) (appIdOf : Nat → Int)
    (tid now : Nat) (s : SchedState) (hpol : PolicyOK pol)
    (hlc : s.systemCores.length = s.numberOfCores)
    (happ0 : ∀ u : Nat, 0 ≤ appIdOf u)
    (hTI : ThreadInvariant appIdOf s) :
    ∀ s', threadCreate pol appIdOf tid now s = some s' → ThreadInvariant appIdOf s' := by
  intro s' h
  rw [threadCreate] at h
  split at h
  case isTrue htid0 =>
    have h00 : tid = 0 := by simpa using htid0
    subst h00
    cases hsch : schedule pol appIdOf 0 true now s with
    | none =>
      rw [hsch] at h
      cases h
    | some p =>
      obtain ⟨ok, s1⟩ := p
      rw [hsch] at h
      cases ok with
      | false => simp at h
      | true =>
        simp only [if_true, Option.some.injEq] at h
        rw [← h]
        exact setAffinity_threadInv appIdOf 0 s1 (happ0 0)
          (schedule_threadInv pol appIdOf 0 true now s hpol hlc (happ0 0) hTI true s1 hsch)
  case isFalse =>
    split at h
    case isTrue htN =>
      cases hsch : schedule pol appIdOf tid true now s with
      | none =>
        rw [hsch] at h
        cases h
      | some p =>
        obtain ⟨ok, s1⟩ := p
        rw [hsch] at h
        simp only [Option.some.injEq] at h
        rw [← h]
        exact setAffinity_threadInv appIdOf tid s1 (happ0 tid)
          (schedule_threadInv pol appIdOf tid true now s hpol hlc (happ0 tid) hTI ok s1 hsch)
    case isFalse =>
      simp only [Option.some.injEq] at h
      rw [← h]
      exact setAffinity_threadInv appIdOf tid s (happ0 tid) hTI

theorem periodic_threadInv (pol : MappingPolicy) (appIdOf : Nat → Int)
    (mappingEpoch now : Nat) (s : SchedState) (hpol : PolicyOK pol) (hInv : Inv s)
    (happ0 : ∀ u : Nat, 0 ≤ appIdOf u)
    (hTI : ThreadInvariant appIdOf s) :
    ∀ s', periodic pol appIdOf mappingEpoch now s = some s' → ThreadInvariant appIdOf s' := by
  intro s' h
  have hmain : ∀ s'', periodicMapping pol appIdOf mappingEpoch now s = some s'' →
      ThreadInvariant appIdOf s'' := by
    intro s'' h'
    rw [periodicMapping] at h'
    split at h'
    · have hTIf : ThreadInvariant appIdOf (fetchTasksIntoQueue now s) := hTI
      exact scheduleLoop_threadInv pol appIdOf now hpol happ0 _ _
        (fetchTasksIntoQueue_Inv now s hInv) hTIf s'' h'
    · simp only [Option.some.injEq] at h'
      rw [← h']
      exact hTI
  rw [periodic] at h
  split at h
  · split at h
    · cases h
    · split at h
      · cases h
      · exact hmain s' h
  · exact hmain s' h

/-- **C7**, counterexample: I3 is NOT preserved by `threadExit` in general.
`stateC7cx` satisfies I3 (primary thread 0 on core 0, worker thread 5 on
core 1, both cores owned by task 0), but when the primary thread exits the
release loop frees the task's cores while thread 5 is still attached to
core 1, leaving a core with an attached thread and no assigned task
(scheduler_open.cc:535-540). -/
theorem C7_thread_invariant_counterexample :
    ThreadInvariant (fun u => if u = 5 then 0 else (u : Int)) stateC7cx ∧
    ∃ s', threadExit (firstUnusedPolicy [0, 1]) (fun u => if u = 5 then 0 else (u : Int))
        0 10 stateC7cx = some s' ∧
      ¬ ThreadInvariant (fun u => if u = 5 then 0 else (u : Int)) s' := by
  refine ⟨by unfold ThreadInvariant; decide, _, rfl, ?_⟩
  unfold ThreadInvariant
  decide

/-- **C7**, amended: under the policy contract, with the primary
thread-to-application map and a consistent start state, every hook preserves
I3 (`ThreadInvariant`): `setAffinity`, `schedule`, `threadCreate` and
`periodic` unconditionally, and `threadExit` PROVIDED no other thread is
still attached to a core of the exiting thread's task (the amendment: the
unamended claim fails on `C7_thread_invariant_counterexample`). -/
theorem C7_thread_invariant_hooks (pol : MappingPolicy) (appIdOf : Nat → Int)
    (s : SchedState) (hpol : PolicyOK pol) (hInv : Inv s)
    (happ : ∀ u : Nat, appIdOf u = (u : Int))
    (hTI : ThreadInvariant appIdOf s) :
    (∀ tid, ThreadInvariant appIdOf (setAffinity appIdOf tid s).2) ∧
    (∀ t b now r s', schedule pol appIdOf t b now s = some (r, s') →
        ThreadInvariant appIdOf s') ∧
    (∀ tid now s', threadCreate pol appIdOf tid now s = some s' →
        ThreadInvariant appIdOf s') ∧
    (∀ tid now s',
        (∀ c ∈ s.systemCores, c.assignedTaskID = appIdOf tid →
          c.assignedThreadID = -1 ∨ c.assignedThreadID = (tid : Int)) →
        threadExit pol appIdOf tid now s = some s' → ThreadInvariant appIdOf s') ∧
    (∀ mappingEpoch now s', periodic pol appIdOf mappingEpoch now s = some s' →
        ThreadInvariant appIdOf s') := by
  have happ0 : ∀ u : Nat, 0 ≤ appIdOf u := by
    intro u
    rw [happ u]
    exact Int.natCast_nonneg u
  have hlc := hInv.1.2.1
  refine ⟨?_, ?_, ?_, ?_, ?_⟩
  · intro tid
    exact setAffinity_threadInv appIdOf tid s (happ0 tid) hTI
  · intro t b now r s' h
    exact schedule_threadInv pol appIdOf t b now s hpol hlc (happ0 t) hTI r s' h
  · intro tid now s' h
    exact threadCreate_threadInv pol appIdOf tid now s hpol hlc happ0 hTI s' h
  · intro tid now s' honly h
    exact threadExit_threadInv pol appIdOf tid now s hpol hInv happ hTI honly s' h
  · intro mappingEpoch now s' h
    exact periodic_threadInv pol appIdOf mappingEpoch now s hpol hInv happ0 hTI s' h

/-- **C7**, witness: on `stateW1` the hypotheses of the amended I3 theorem
hold concretely, and the `setAffinity` hook keeps I3. -/
theorem C7_thread_invariant_hooks_witness :
    ThreadInvariant primaryAppId (setAffinity primaryAppId 0 stateW1).2 := by
  have h := C7_thread_invariant_hooks (firstUnusedPolicy [0]) primaryAppId stateW1
    (PolicyOK_firstUnused [0] (by decide)) Inv_stateW1 (fun u => rfl)
    (by unfold ThreadInvariant; decide)
  exact h.1 0

theorem computeNextArrivalTime_min (tasks : List openTask)
    (hnz : ∀ u ∈ tasks, u.waitingToSchedule = true → u.taskArrivalTime ≠ 0) :
    ∀ u ∈ tasks, u.waitingToSchedule = true →
      computeNextArrivalTime tasks ≠ 0 ∧
      computeNextArrivalTime tasks ≤ u.taskArrivalTime := by
  suffices hgen : ∀ (l : List openTask),
      (∀ u ∈ l, u.waitingToSchedule = true → u.taskArrivalTime ≠ 0) →
      ∀ (acc : Nat),
      (acc ≠ 0 →
        l.foldl (fun acc t =>
          if t.waitingToSchedule then
            if acc == 0 then t.taskArrivalTime
            else if acc > t.taskArrivalTime then t.taskArrivalTime
            else acc
          else acc) acc ≠ 0 ∧
        l.foldl (fun acc t =>
          if t.waitingToSchedule then
            if acc == 0 then t.taskArrivalTime
            else if acc > t.taskArrivalTime then t.taskArrivalTime
            else acc
          else acc) acc ≤ acc) ∧
      (∀ u ∈ l, u.waitingToSchedule = true →
        l.foldl (fun acc t =>
          if t.waitingToSchedule then
            if acc == 0 then t.taskArrivalTime
            else if acc > t.taskArrivalTime then t.taskArrivalTime
            else acc
          else acc) acc ≠ 0 ∧
        l.foldl (fun acc t =>
          if t.waitingToSchedule then
            if acc == 0 then t.taskArrivalTime
            else if acc > t.taskArrivalTime then t.taskArrivalTime
            else acc
          else acc) acc ≤ u.taskArrivalTime) by
    intro u hu hw
    exact (hgen tasks hnz 0).2 u hu hw
  intro l
  induction l with
  | nil =>
    intro hnz0 acc
    refine ⟨fun h0 => ⟨h0, le_refl acc⟩, ?_⟩
    intro u hu
    exact absurd hu (List.not_mem_nil u)
  | cons t rest ih =>
    intro hnzc acc
    simp only [List.foldl_cons]
    have hnzt : t.waitingToSchedule = true → t.taskArrivalTime ≠ 0 :=
      hnzc t (List.mem_cons_self t rest)
    have hnzr : ∀ u ∈ rest, u.waitingToSchedule = true → u.taskArrivalTime ≠ 0 :=
      fun u hu => hnzc u (List.mem_cons_of_mem t hu)
    by_cases hw : t.waitingToSchedule = true
    · set b := (if t.waitingToSchedule then
          if acc == 0 then t.taskArrivalTime
          else if acc > t.taskArrivalTime then t.taskArrivalTime
          else acc
        else acc) with hbdef
      have hbfacts : b ≠ 0 ∧ b ≤ t.taskArrivalTime ∧ (acc ≠ 0 → b ≤ acc) := by
        rw [hbdef, if_pos hw]
        rcases Nat.eq_zero_or_pos acc with h0 | hpos
        · subst h0
          rw [if_pos (show ((0 : Nat) == 0) = true from rfl)]
          exact ⟨hnzt hw, le_refl _, fun hc => absurd rfl hc⟩
        · have hne : acc ≠ 0 := by omega
          have hcond : ¬((acc == 0) = true) := by simpa using hne
          rw [if_neg hcond]
          by_cases hgt : acc > t.taskArrivalTime
          · rw [if_pos hgt]
            exact ⟨hnzt hw, le_refl _, fun _ => by omega⟩
          · rw [if_neg hgt]
            exact ⟨hne, by omega, fun _ => le_refl _⟩
      obtain ⟨hbne, hble, hbacc⟩ := hbfacts
      obtain ⟨ih1, ih2⟩ := ih hnzr b
      have hr := ih1 hbne
      refine ⟨fun hacc => ⟨hr.1, le_trans hr.2 (hbacc hacc)⟩, ?_⟩
      intro u hu hw'
      rcases List.mem_cons.mp hu with rfl | hur
      · exact ⟨hr.1, le_trans hr.2 hble⟩
      · exact ih2 u hur hw'
    · have hb : (if t.waitingToSchedule then
          if acc == 0 then t.taskArrivalTime
          else if acc > t.taskArrivalTime then t.taskArrivalTime
          else acc
        else acc) = acc := if_neg hw
      simp only [hb]
      obtain ⟨ih1, ih2⟩ := ih hnzr acc
      refine ⟨ih1, ?_⟩
      intro u hu hw'
      rcases List.mem_cons.mp hu with rfl | hur
      · exact absurd hw' hw
      · exact ih2 u hur hw'

/-- **C5**, counterexample: the time jump does NOT preserve relative arrival
order in general.  In `stateC5cx` the waiting tasks 1 and 2 have arrival
times 0 and 7; the `nextArrivalTime` scan skips the 0-arrival task (it treats
accumulator 0 as "empty", scheduler_open.cc:560-566), computes jump = 7−5 = 2,
and the wrapping `UInt64` subtraction sends task 1's arrival to 2^64−2: after
the `threadExit` jump the order of tasks 1 and 2 is inverted and task 1's
arrival has INCREASED. -/
theorem C5_timejump_counterexample :
    (stateC5cx.openTasks.getD 1 default).taskArrivalTime <
      (stateC5cx.openTasks.getD 2 default).taskArrivalTime ∧
    ∃ s', threadExit (firstUnusedPolicy [0]) primaryAppId 0 5 stateC5cx = some s' ∧
      (s'.openTasks.getD 2 default).taskArrivalTime <
        (s'.openTasks.getD 1 default).taskArrivalTime ∧
      (stateC5cx.openTasks.getD 1 default).taskArrivalTime <
        (s'.openTasks.getD 1 default).taskArrivalTime := by
  exact ⟨by decide, _, rfl, by decide, by decide⟩

/-- **C5**, amended: PROVIDED every `WaitingToSchedule` task has a nonzero
arrival time that is at least `now` and below `2^64` (the amendment: the
unamended claim fails on `C5_timejump_counterexample`), the `threadExit` time
jump — subtracting `nextArrivalTime − now` from every waiting task's arrival
via the wrapping subtraction — preserves the relative order of any two
waiting tasks' arrival times and never increases an arrival time. -/
theorem C5_timejump_order_preservation (s : SchedState) (now : Nat)
    (hbound : ∀ u ∈ s.openTasks, u.taskArrivalTime < 2 ^ 64)
    (harr : ∀ u ∈ s.openTasks, u.waitingToSchedule = true →
      now ≤ u.taskArrivalTime ∧ u.taskArrivalTime ≠ 0) :
    ∀ i j, i < s.openTasks.length → j < s.openTasks.length →
      (s.openTasks.getD i default).waitingToSchedule = true →
      (s.openTasks.getD j default).waitingToSchedule = true →
      ((((adjustArrivalTimes s.openTasks
            (usub64 (computeNextArrivalTime s.openTasks) now)).getD i
              default).taskArrivalTime ≤
        ((adjustArrivalTimes s.openTasks
            (usub64 (computeNextArrivalTime s.openTasks) now)).getD j
              default).taskArrivalTime ↔
        (s.openTasks.getD i default).taskArrivalTime ≤
          (s.openTasks.getD j default).taskArrivalTime) ∧
      ((adjustArrivalTimes s.openTasks
          (usub64 (computeNextArrivalTime s.openTasks) now)).getD i
            default).taskArrivalTime ≤
        (s.openTasks.getD i default).taskArrivalTime) := by
  intro i j hi hj hwi hwj
  have hmemi : s.openTasks.getD i default ∈ s.openTasks := by
    rw [List.getD_eq_getElem _ _ hi]
    exact List.getElem_mem hi
  have hmemj : s.openTasks.getD j default ∈ s.openTasks := by
    rw [List.getD_eq_getElem _ _ hj]
    exact List.getElem_mem hj
  obtain ⟨hni, hlei⟩ := computeNextArrivalTime_min s.openTasks
    (fun u hu hw => (harr u hu hw).2) _ hmemi hwi
  obtain ⟨-, hlej⟩ := computeNextArrivalTime_min s.openTasks
    (fun u hu hw => (harr u hu hw).2) _ hmemj hwj
  rcases computeNextArrivalTime_cases s.openTasks with h0 | ⟨w, hwmem, hww, hwe⟩
  · exact absurd h0 hni
  · have hcb : computeNextArrivalTime s.openTasks < 2 ^ 64 := by
      rw [hwe]
      exact hbound w hwmem
    have hcn : now ≤ computeNextArrivalTime s.openTasks := by
      rw [hwe]
      exact (harr w hwmem hww).1
    have hJ : usub64 (computeNextArrivalTime s.openTasks) now =
        computeNextArrivalTime s.openTasks - now := usub64_of_le _ _ hcb hcn
    have hJi : usub64 (computeNextArrivalTime s.openTasks) now ≤
        (s.openTasks.getD i default).taskArrivalTime := by
      rw [hJ]
      omega
    have hJj : usub64 (computeNextArrivalTime s.openTasks) now ≤
        (s.openTasks.getD j default).taskArrivalTime := by
      rw [hJ]
      omega
    have hadji := adjustArrivalTimes_getD s.openTasks
      (usub64 (computeNextArrivalTime s.openTasks) now) i hi
    rw [if_pos hwi] at hadji
    have hadjj := adjustArrivalTimes_getD s.openTasks
      (usub64 (computeNextArrivalTime s.openTasks) now) j hj
    rw [if_pos hwj] at hadjj
    have hvi : (((adjustArrivalTimes s.openTasks
        (usub64 (computeNextArrivalTime s.openTasks) now)).getD i
          default).taskArrivalTime) =
        usub64 (s.openTasks.getD i default).taskArrivalTime
          (usub64 (computeNextArrivalTime s.openTasks) now) := by
      rw [hadji]
    have hvj : (((adjustArrivalTimes s.openTasks
        (usub64 (computeNextArrivalTime s.openTasks) now)).getD j
          default).taskArrivalTime) =
        usub64 (s.openTasks.getD j default).taskArrivalTime
          (usub64 (computeNextArrivalTime s.openTasks) now) := by
      rw [hadjj]
    have hui : usub64 (s.openTasks.getD i default).taskArrivalTime
        (usub64 (computeNextArrivalTime s.openTasks) now) =
        (s.openTasks.getD i default).taskArrivalTime -
          usub64 (computeNextArrivalTime s.openTasks) now :=
      usub64_of_le _ _ (hbound _ hmemi) hJi
    have huj : usub64 (s.openTasks.getD j default).taskArrivalTime
        (usub64 (computeNextArrivalTime s.openTasks) now) =
        (s.openTasks.getD j default).taskArrivalTime -
          usub64 (computeNextArrivalTime s.openTasks) now :=
      usub64_of_le _ _ (hbound _ hmemj) hJj
    rw [hvi, hvj, hui, huj]
    refine ⟨by omega, by omega⟩

/-- **C5**, witness: on `stateC5w` (waiting arrivals 7 and 9, `now = 5`) the
adjusted arrivals keep their order and do not increase. -/
theorem C5_timejump_order_preservation_witness :
    ((adjustArrivalTimes stateC5w.openTasks
        (usub64 (computeNextArrivalTime stateC5w.openTasks) 5)).getD 1
          default).taskArrivalTime ≤
      ((adjustArrivalTimes stateC5w.openTasks
          (usub64 (computeNextArrivalTime stateC5w.openTasks) 5)).getD 2
            default).taskArrivalTime ∧
    ((adjustArrivalTimes stateC5w.openTasks
        (usub64 (computeNextArrivalTime stateC5w.openTasks) 5)).getD 1
          default).taskArrivalTime ≤
      (stateC5w.openTasks.getD 1 default).taskArrivalTime := by
  have h := C5_timejump_order_preservation stateC5w 5 (by decide) (by decide)
    1 2 (by decide) (by decide) (by decide) (by decide)
  exact ⟨h.1.mpr (by decide), h.2⟩

/-- **C6**, counterexample: FIFO admission order is NOT respected across the
whole run.  In `runC6` on `stateC6init` (queue policy FIFO) thread 1 is
created at time 4 before its task's arrival, so `schedule(1, true, 4)` returns
false and task 1 is never fetched into the queue; when thread 2 is created at
time 6 its task is queued and admitted immediately, and task 1 only enters at
the next mapping epoch: both tasks end Active, with task 2's start time (6)
strictly before task 1's (10) although 1 < 2. -/
theorem C6_fifo_counterexample :
    stateC6init.queuePolicy = "FIFO" ∧
    ∃ s', execRun (firstUnusedPolicy [0, 1]) primaryAppId 10 stateC6init runC6 = some s' ∧
      (s'.openTasks.getD 1 default).active = true ∧
      (s'.openTasks.getD 2 default).active = true ∧
      (s'.openTasks.getD 2 default).taskStartTime <
        (s'.openTasks.getD 1 default).taskStartTime := by
  exact ⟨rfl, _, rfl, by decide, by decide, by decide⟩

/-- **C6**, amended: the FIFO discipline does hold at the level of a single
`schedule` call (the amendment: over a whole run the unamended claim fails on
`C6_fifo_counterexample`, because a task whose thread is created before its
arrival is never queued): under queue policy FIFO, while a lower-indexed task
`i` is in the queue, `schedule` for a higher-indexed task `j` returns false
and leaves task `j`'s `active` flag unchanged — `j` cannot overtake `i`. -/
theorem C6_fifo_no_overtaking (pol : MappingPolicy) (appIdOf : Nat → Int)
    (s : SchedState) (i j : Nat) (b : Bool) (now : Nat)
    (hfifo : s.queuePolicy = "FIFO")
    (hij : i < j) (hj : j < s.openTasks.length)
    (hqi : (s.openTasks.getD i default).waitingInQueue = true) :
    ∀ r s', schedule pol appIdOf j b now s = some (r, s') →
      r = false ∧
      (s'.openTasks.getD j default).active = (s.openTasks.getD j default).active := by
  intro r s' h
  rw [schedule] at h
  split at h
  case isTrue harr =>
    simp only [Option.some.injEq, Prod.mk.injEq] at h
    obtain ⟨hr, hs⟩ := h
    exact ⟨hr.symm, by rw [← hs]⟩
  case isFalse harr =>
    have hqi' : ((queueTask s j).openTasks.getD i default).waitingInQueue = true := by
      rw [queueTask_getD_ne s j i (by omega)]
      exact hqi
    have hilen : i < (queueTask s j).openTasks.length := by
      have hlen : (queueTask s j).openTasks.length = s.openTasks.length := by
        rw [queueTask]
        exact List.length_set _ _ _
      omega
    obtain ⟨k, hfind, hk⟩ := findIdx?_le_of_getD (fun t => t.waitingInQueue)
      (queueTask s j).openTasks i hilen hqi'
    have hqp : (queueTask s j).queuePolicy = "FIFO" := hfifo
    have hfq : taskFrontOfQueue (queueTask s j) = some (k : Int) := by
      rw [taskFrontOfQueue, if_pos hqp, hfind]
    rw [hfq] at h
    simp only [] at h
    have hfront : (k : Int) ≠ (j : Int) := by
      intro hc
      have hkj : k = j := by exact_mod_cast hc
      omega
    rw [if_pos hfront] at h
    simp only [Option.some.injEq, Prod.mk.injEq] at h
    obtain ⟨hr, hs⟩ := h
    refine ⟨hr.symm, ?_⟩
    rw [← hs]
    rw [queueTask_getD_self s j hj]

/-- **C6**, witness: with task 0 queued in `stateC6init`, `schedule` for task 1
returns false. -/
theorem C6_fifo_no_overtaking_witness :
    ∃ r s', schedule (firstUnusedPolicy [0, 1]) primaryAppId 1 false 10
        (queueTask stateC6init 0) = some (r, s') ∧ r = false := by
  have h := C6_fifo_no_overtaking (firstUnusedPolicy [0, 1]) primaryAppId
    (queueTask stateC6init 0) 0 1 false 10 rfl (by decide) (by decide) (by decide)
  exact ⟨_, _, rfl, (h _ _ rfl).1⟩

end CoMeT
